import Mathlib

/-!
# Verification of the bmd in-memory object store (`memdb`)

This file gives a shallow embedding, in Lean 4, of the `memdb` object-store
engine of the bmd Bitmessage daemon (package `memdb`, the variant embedded in
`rpcmethods.go`, which is the one exercised by `memdb_test.go`), together with
theorems settling the frozen claims about it.

Modelling conventions:
* Go maps are modelled as association lists `List (K × V)`; the list order
  represents the (unspecified, randomized) iteration order of the Go map.
  Assignment `m[k] = v` replaces the value at the first occurrence of `k`
  (or appends), `delete` removes the first occurrence, and lookup returns
  the value at the first occurrence.  For lists with no duplicate keys
  (every real Go map state) these coincide with Go map semantics, and
  iterating the list corresponds to one possible Go iteration order.
* `uint64` counters are modelled as `Nat` with an explicit `% 2^64` at the
  single place they are incremented (`counter.Insert`).
* The external collaborators (the wire codec `wire.DecodeMsgObjectHeader`,
  `bmutil.CalcInventoryHash`, `wire.MsgPubKey` decoding and identity tag
  derivation) are not part of this repository; they are modelled from the
  spec as an abstract `Codec` parameter (§6 of the spec: the store treats them
  as opaque boundaries).
* Errors are values of `DbError`; Go `panic` is modelled by the distinguished
  result `DbResult.panicked`.
-/

namespace Bmd

/-- Raw object bytes (Go `[]byte`), as a list of byte values. -/
abbrev Bytes := List Nat

/-- A `wire.ShaHash`: a fixed-size digest, treated as an opaque
equality-comparable key.  Modelled as its list of byte values. -/
abbrev Hash := List Nat

/-- `wire.ObjectType` (a `uint32` enumeration; only compared for equality). -/
abbrev ObjType := Nat

/-- `wire.ObjectTypeGetPubKey` -/
def objectTypeGetPubKey : ObjType := 0
/-- `wire.ObjectTypePubKey` -/
def objectTypePubKey : ObjType := 1
/-- `wire.ObjectTypeMsg` -/
def objectTypeMsg : ObjType := 2
/-- `wire.ObjectTypeBroadcast` -/
def objectTypeBroadcast : ObjType := 3

/-- `wire.HashSize` (32 bytes). -/
def hashSize : Nat := 32

/-- `wire.NewShaHash`: builds a `ShaHash` from a byte slice, failing exactly
when the slice does not have length `wire.HashSize`. -/
def newShaHash (b : Bytes) : Option Hash :=
  if b.length = hashSize then some b else none

/-- The decoded object header, as returned by `wire.DecodeMsgObjectHeader`
(the received-time field is unused by the store and omitted).  Expiration is
an absolute timestamp in seconds. -/
structure ObjHeader where
  expiresTime : Int
  objType : ObjType
  version : Nat
  streamNumber : Nat
  deriving DecidableEq, Repr

/-- The fields of a decoded `wire.MsgPubKey` used by the store: the message
version and the embedded tag bytes. -/
structure PubKeyMsg where
  version : Nat
  tag : Bytes
  deriving DecidableEq, Repr

/-- `wire.SimplePubKeyVersion` -/
def simplePubKeyVersion : Nat := 2
/-- `wire.ExtendedPubKeyVersion` -/
def extendedPubKeyVersion : Nat := 3
/-- `wire.EncryptedPubKeyVersion` -/
def encryptedPubKeyVersion : Nat := 4

/-- Modelled from the spec: the external codec / hashing / identity boundary
(§6 of the spec), which is not part of this repository.  `decodeHeader` is
`wire.DecodeMsgObjectHeader` (returning `none` on a decode error),
`calcInventoryHash` is `bmutil.CalcInventoryHash` (total),
`decodePubKey` is `wire.MsgPubKey.Decode`, and `identityTag` is
`identity.IdentityFromPubKeyMsg` followed by `id.Address.Tag()`
(returning `none` when the embedded keys are invalid). -/
structure Codec where
  decodeHeader : Bytes → Option ObjHeader
  calcInventoryHash : Bytes → Bytes
  decodePubKey : Bytes → Option PubKeyMsg
  identityTag : PubKeyMsg → Option Bytes

/-! ## Association-list model of Go maps -/

section AList

variable {K V : Type} [DecidableEq K]

/-- Go map lookup `m[k]`: the value at the first occurrence of `k`. -/
def alookup : List (K × V) → K → Option V
  | [], _ => none
  | (k', v) :: rest, k => if k' = k then some v else alookup rest k

/-- Go map assignment `m[k] = v`: replace the value at the first occurrence
of `k`, or append a new entry. -/
def ainsert : List (K × V) → K → V → List (K × V)
  | [], k, v => [(k, v)]
  | (k', v') :: rest, k, v =>
    if k' = k then (k, v) :: rest else (k', v') :: ainsert rest k v

/-- Go map `delete(m, k)`: remove the first occurrence of `k`. -/
def aerase : List (K × V) → K → List (K × V)
  | [], _ => []
  | (k', v') :: rest, k =>
    if k' = k then rest else (k', v') :: aerase rest k

end AList

/-! ## The store state (`memdb.MemDb`) -/

/-- `memdb.counter`: a per-type counter bucket, holding the mapping from
counter values to object hashes and the current counter position. -/
structure Counter where
  byCounter : List (Nat × Hash)
  counterPos : Nat
  deriving DecidableEq, Repr

/-- `counter.Insert`: increment the position (uint64 arithmetic) and record
the hash at the new position. -/
def Counter.insert (c : Counter) (h : Hash) : Counter :=
  let pos := (c.counterPos + 1) % 2 ^ 64
  { byCounter := ainsert c.byCounter pos h, counterPos := pos }

/-- `memdb.MemDb`: the in-memory store.  `Close` sets the Go maps to `nil`;
since every operation checks `closed` first, `nil` maps are modelled as the
empty list. -/
structure MemDb where
  objectsByHash : List (Hash × Bytes)
  pubKeyByTag : List (Hash × Bytes)
  msgCounter : Counter
  broadcastCounter : Counter
  pubKeyCounter : Counter
  getPubKeyCounter : Counter
  unknownObjCounter : List (ObjType × Counter)
  closed : Bool
  deriving DecidableEq, Repr

/-- `memdb.newMemDb`: a fresh open store with empty indices. -/
def newMemDb : MemDb :=
  { objectsByHash := []
    pubKeyByTag := []
    msgCounter := ⟨[], 0⟩
    broadcastCounter := ⟨[], 0⟩
    pubKeyCounter := ⟨[], 0⟩
    getPubKeyCounter := ⟨[], 0⟩
    unknownObjCounter := []
    closed := false }

/-- The error values from package `database` that `memdb` returns. -/
inductive DbError where
  | dbClosed
  | nonexistentObject
  | notImplemented
  /-- an error passed through from the external codec (`wire` / `identity`) -/
  | codecError
  deriving DecidableEq, Repr

/-- The outcome of a store call: a normal return value, an error return, or a
Go `panic` (the store panics on internal consistency violations). -/
inductive DbResult (α : Type) where
  | ok (a : α)
  | err (e : DbError)
  | panicked
  deriving DecidableEq, Repr

/-- `MemDb.getCounterMap`: dispatch to the counter bucket for `objType`.
The four known types use the fixed fields; any other type uses the
`unknownObjCounter` map, lazily creating an empty bucket (a mutation of the
store) when the type has none yet.  The Go function returns a non-nil pointer
in every branch; here it returns the (possibly updated) store together with
the bucket contents. -/
def MemDb.getCounterMap (db : MemDb) (objType : ObjType) : MemDb × Counter :=
  if objType = objectTypeBroadcast then (db, db.broadcastCounter)
  else if objType = objectTypeMsg then (db, db.msgCounter)
  else if objType = objectTypePubKey then (db, db.pubKeyCounter)
  else if objType = objectTypeGetPubKey then (db, db.getPubKeyCounter)
  else
    match alookup db.unknownObjCounter objType with
    | some count => (db, count)
    | none =>
      let count : Counter := ⟨[], 0⟩
      ({ db with unknownObjCounter := ainsert db.unknownObjCounter objType count },
       count)

/-- Write a counter bucket back into the store.  This models, in a purely
functional setting, the mutations Go performs through the `*counter` pointer
returned by `getCounterMap`. -/
def MemDb.setCounterMap (db : MemDb) (objType : ObjType) (c : Counter) : MemDb :=
  if objType = objectTypeBroadcast then { db with broadcastCounter := c }
  else if objType = objectTypeMsg then { db with msgCounter := c }
  else if objType = objectTypePubKey then { db with pubKeyCounter := c }
  else if objType = objectTypeGetPubKey then { db with getPubKeyCounter := c }
  else { db with unknownObjCounter := ainsert db.unknownObjCounter objType c }

/-- Pure observer: the `byCounter` contents of the bucket for a type
(`[]` when an unknown type has no bucket).  Used to state theorems; not part
of the Go source. -/
def MemDb.bucketView (db : MemDb) (objType : ObjType) : List (Nat × Hash) :=
  if objType = objectTypeBroadcast then db.broadcastCounter.byCounter
  else if objType = objectTypeMsg then db.msgCounter.byCounter
  else if objType = objectTypePubKey then db.pubKeyCounter.byCounter
  else if objType = objectTypeGetPubKey then db.getPubKeyCounter.byCounter
  else ((alookup db.unknownObjCounter objType).map Counter.byCounter).getD []

/-- Pure observer: the counter position of the bucket for a type
(0 when an unknown type has no bucket). -/
def MemDb.bucketPos (db : MemDb) (objType : ObjType) : Nat :=
  if objType = objectTypeBroadcast then db.broadcastCounter.counterPos
  else if objType = objectTypeMsg then db.msgCounter.counterPos
  else if objType = objectTypePubKey then db.pubKeyCounter.counterPos
  else if objType = objectTypeGetPubKey then db.getPubKeyCounter.counterPos
  else ((alookup db.unknownObjCounter objType).map Counter.counterPos).getD 0

/-! ## Store operations -/

/-- `MemDb.Close`: fail if already closed, otherwise release the indices
(Go sets them to `nil`) and mark the store closed. -/
def MemDb.close (db : MemDb) : MemDb × DbResult Unit :=
  if db.closed then (db, .err .dbClosed)
  else
    ({ objectsByHash := []
       pubKeyByTag := []
       msgCounter := ⟨[], 0⟩
       broadcastCounter := ⟨[], 0⟩
       pubKeyCounter := ⟨[], 0⟩
       getPubKeyCounter := ⟨[], 0⟩
       unknownObjCounter := []
       closed := true }, .ok ())

/-- `MemDb.ExistsObject`: whether the hash index contains `hash`. -/
def MemDb.existsObject (db : MemDb) (hash : Hash) : DbResult Bool :=
  if db.closed then .err .dbClosed
  else
    match alookup db.objectsByHash hash with
    | some _ => .ok true
    | none => .ok false

/-- `MemDb.fetchObjectByHash` (lowercase): the lock-free helper; returns the
stored bytes or `ErrNonexistentObject`. -/
def MemDb.fetchObjectByHashPriv (db : MemDb) (hash : Hash) : DbResult Bytes :=
  match alookup db.objectsByHash hash with
  | some object => .ok object
  | none => .err .nonexistentObject

/-- `MemDb.FetchObjectByHash`: the public wrapper, gated on the closed flag. -/
def MemDb.fetchObjectByHash (db : MemDb) (hash : Hash) : DbResult Bytes :=
  if db.closed then .err .dbClosed
  else db.fetchObjectByHashPriv hash

/-- `MemDb.FetchObjectByCounter`: resolve a counter value through the type's
bucket, then through the hash index; a hash present in the bucket but absent
from the hash index is a fatal consistency violation (`panic`).  (In this
engine `getCounterMap` never returns nil, so the `ErrNotImplemented` branch
of the Go source is unreachable.) -/
def MemDb.fetchObjectByCounter (db : MemDb) (objType : ObjType)
    (counter : Nat) : MemDb × DbResult Bytes :=
  if db.closed then (db, .err .dbClosed)
  else
    let gc := db.getCounterMap objType
    match alookup gc.2.byCounter counter with
    | none => (gc.1, .err .nonexistentObject)
    | some hash =>
      match gc.1.fetchObjectByHashPriv hash with
      | .ok obj => (gc.1, .ok obj)
      | _ => (gc.1, .panicked)

/-- `MemDb.GetCounter`: return the bucket's current counter position.  In
this engine `getCounterRef` never returns nil (`getCounterMap` always yields
a bucket, lazily creating one for an unknown type), so the
`ErrNotImplemented` branch of the Go source is unreachable. -/
def MemDb.getCounter (db : MemDb) (objType : ObjType) : MemDb × DbResult Nat :=
  if db.closed then (db, .err .dbClosed)
  else
    let gc := db.getCounterMap objType
    (gc.1, .ok gc.2.counterPos)

/-- `MemDb.Sync`: no-op barrier; fails only when the store is closed. -/
def MemDb.sync (db : MemDb) : DbResult Unit :=
  if db.closed then .err .dbClosed else .ok ()

/-- `MemDb.RemovePubKey`: remove the tag-index entry for `tag`; the hash
index is deliberately untouched. -/
def MemDb.removePubKey (db : MemDb) (tag : Hash) : MemDb × DbResult Unit :=
  if db.closed then (db, .err .dbClosed)
  else
    match alookup db.pubKeyByTag tag with
    | none => (db, .err .nonexistentObject)
    | some _ => ({ db with pubKeyByTag := aerase db.pubKeyByTag tag }, .ok ())

/-- The linear scan `for k, v := range counterMap.ByCounter { if v.IsEqual(hash)
{ delete(...); break } }` used by `RemoveObject` and `RemoveExpiredObjects`:
remove the first entry (in iteration order) whose hash matches. -/
def removeFirstMatch : List (Nat × Hash) → Hash → List (Nat × Hash)
  | [], _ => []
  | (k, v) :: rest, hash =>
    if v = hash then rest else (k, v) :: removeFirstMatch rest hash

/-- The shared removal pattern of `RemoveObject` and `RemoveExpiredObjects`:
remove the first entry matching `hash` from the bucket of `t`, then delete
`hash` from the hash index. -/
def MemDb.removeFromIndexes (db : MemDb) (t : ObjType) (hash : Hash) : MemDb :=
  let db2 := (db.getCounterMap t).1.setCounterMap t
    { (db.getCounterMap t).2 with
      byCounter := removeFirstMatch (db.getCounterMap t).2.byCounter hash }
  { db2 with objectsByHash := aerase db2.objectsByHash hash }

/-- The state change of `RemoveObjectByCounter`: delete the bucket entry at
counter key `k` for type `t`, then delete `hash` from the hash index. -/
def MemDb.removeByCounterEntry (db : MemDb) (t : ObjType) (k : Nat)
    (hash : Hash) : MemDb :=
  let db2 := (db.getCounterMap t).1.setCounterMap t
    { (db.getCounterMap t).2 with
      byCounter := aerase (db.getCounterMap t).2.byCounter k }
  { db2 with objectsByHash := aerase db2.objectsByHash hash }

/-- `MemDb.RemoveObjectByCounter`: remove the bucket entry at `counter` and
the corresponding hash-index entry.  (The `ErrNotImplemented` branch for a
nil bucket is unreachable in this engine.)  Note that for an unknown type
`getCounterMap` may create an empty bucket even on the error path. -/
def MemDb.removeObjectByCounter (db : MemDb) (objType : ObjType)
    (counter : Nat) : MemDb × DbResult Unit :=
  if db.closed then (db, .err .dbClosed)
  else
    let gc := db.getCounterMap objType
    match alookup gc.2.byCounter counter with
    | none => (gc.1, .err .nonexistentObject)
    | some hash => (db.removeByCounterEntry objType counter hash, .ok ())

/-- `MemDb.RemoveObject`: look up the object, decode its header to learn its
type (a decode failure here is a fatal consistency violation, `panic`),
remove the first matching entry from the type's bucket, then remove the
hash-index entry.  (The Go source calls `getCounterMap` before checking the
decode error; on the failure path the zero-value type 0 selects a fixed
bucket, so this makes no observable state change and the panic here is
equivalent.) -/
def MemDb.removeObject (cd : Codec) (db : MemDb) (hash : Hash) :
    MemDb × DbResult Unit :=
  if db.closed then (db, .err .dbClosed)
  else
    match alookup db.objectsByHash hash with
    | none => (db, .err .nonexistentObject)
    | some obj =>
      match cd.decodeHeader obj with
      | none => (db, .panicked)
      | some hdr => (db.removeFromIndexes hdr.objType hash, .ok ())

/-- The tag-derivation step of `InsertObject` for a pubkey object: the
version-dependent `switch` on `msg.Version`, the `NewShaHash` of the derived
tag, and the tag-index upsert.  Returns the updated store, or `none` for the
error returns of the Go source (`msg.Decode`, `IdentityFromPubKeyMsg`, or
`NewShaHash` failing — the latter also for an unknown version, whose `tag`
stays nil). -/
def MemDb.insertPubKeyStep (cd : Codec) (db : MemDb) (data : Bytes) :
    Option MemDb :=
  match cd.decodePubKey data with
  | none => none
  | some msg =>
    let tagBytes : Option Bytes :=
      if msg.version = simplePubKeyVersion ∨
          msg.version = extendedPubKeyVersion then
        cd.identityTag msg
      else if msg.version = encryptedPubKeyVersion then
        some msg.tag
      else
        some []  -- tag stays nil; NewShaHash below rejects it
    match tagBytes with
    | none => none
    | some tag =>
      match newShaHash tag with
      | none => none
      | some tagH =>
        some { db with pubKeyByTag := ainsert db.pubKeyByTag tagH data }

/-- The final, mutating step of `InsertObject`: insert into the hash index,
then insert into the type's counter bucket and return the hash with the
assigned counter. -/
def MemDb.insertFinish (db1 : MemDb) (objType : ObjType) (hash : Hash)
    (data : Bytes) : MemDb × DbResult (Hash × Nat) :=
  let db2 := { db1 with objectsByHash := ainsert db1.objectsByHash hash data }
  let gc := db2.getCounterMap objType
  let counterMap' := gc.2.insert hash
  (gc.1.setCounterMap objType counterMap', .ok (hash, counterMap'.counterPos))

/-- `MemDb.InsertObject`: decode the header; compute the inventory hash; for
a pubkey object additionally derive a tag (three version-dependent
derivations; an unknown version leaves the tag nil, which then fails
`NewShaHash`) and upsert the tag index; then insert into the hash index and
the type's counter bucket, returning the hash and the assigned counter.
Every error return happens before any mutation; the
`dataInsert := copy(data)` is implicit in value semantics.  (`getCounterMap`
never returns nil in this engine, so the `counter == 0` early return of the
Go source is unreachable.) -/
def MemDb.insertObject (cd : Codec) (db : MemDb) (data : Bytes) :
    MemDb × DbResult (Hash × Nat) :=
  if db.closed then (db, .err .dbClosed)
  else
    match cd.decodeHeader data with
    | none => (db, .err .codecError)
    | some hdr =>
      match newShaHash (cd.calcInventoryHash data) with
      | none => (db, .err .codecError)
      | some hash =>
        let afterPubKey : Option MemDb :=
          if hdr.objType = objectTypePubKey then db.insertPubKeyStep cd data
          else some db
        match afterPubKey with
        | none => (db, .err .codecError)
        | some db1 => db1.insertFinish hdr.objType hash data

/-- The key-selection loop of `FetchObjectsFromCounter`: walk the bucket in
iteration order, skipping keys below `fromCounter` and stopping (`break`)
once `count` keys have been taken. -/
def selectKeys : List (Nat × Hash) → Nat → Nat → Nat → List Nat
  | [], _, _, _ => []
  | (k, _) :: rest, fromCounter, count, c =>
    if k < fromCounter then selectKeys rest fromCounter count c
    else if count ≤ c then []
    else k :: selectKeys rest fromCounter count (c + 1)

/-- Insert into an ascending-sorted list (helper for `sortCounters`). -/
def insertSorted (x : Nat) : List Nat → List Nat
  | [] => [x]
  | y :: rest => if x ≤ y then x :: y :: rest else y :: insertSorted x rest

/-- `sort.Sort(counters(keys))`: sort the selected keys ascending. -/
def sortCounters (l : List Nat) : List Nat := l.foldr insertSorted []

/-- The fetch loop of `FetchObjectsFromCounter`: resolve each selected key
through the bucket and the hash index; a missing object is a fatal
consistency violation (`panic`).  The per-object deep copy is implicit in
value semantics. -/
def fetchLoop (db : MemDb) (byCounter : List (Nat × Hash)) :
    List Nat → DbResult (List Bytes)
  | [] => .ok []
  | k :: rest =>
    match alookup byCounter k with
    | none => .panicked  -- cannot happen: k was selected from the bucket
    | some hash =>
      match db.fetchObjectByHashPriv hash with
      | .ok obj =>
        match fetchLoop db byCounter rest with
        | .ok objs => .ok (obj :: objs)
        | r => r
      | _ => .panicked

/-- `MemDb.FetchObjectsFromCounter`: select keys `≥ counter` from the type's
bucket (stopping after `count` of them, in bucket iteration order), sort
them ascending, resolve each to its bytes, and return the objects together
with the counter of the last one (0 when none).  (The `ErrNotImplemented`
branch for a nil bucket is unreachable in this engine.) -/
def MemDb.fetchObjectsFromCounter (db : MemDb) (objType : ObjType)
    (counter count : Nat) : MemDb × DbResult (List Bytes × Nat) :=
  if db.closed then (db, .err .dbClosed)
  else
    let gc := db.getCounterMap objType
    let keys := sortCounters (selectKeys gc.2.byCounter counter count 0)
    let newCounter : Nat :=
      match keys.getLast? with
      | none => 0
      | some k => k
    match fetchLoop gc.1 gc.2.byCounter keys with
    | .ok objects => (gc.1, .ok (objects, newCounter))
    | .err e => (gc.1, .err e)
    | .panicked => (gc.1, .panicked)

/-- `gracePeriod`: the 3-hour margin of `RemoveExpiredObjects`, in seconds. -/
def gracePeriod : Int := 3 * 3600

/-- Whether the sweep removes an object with these bytes: its header decodes
with `now - gracePeriod > expiresTime` and its type is not PubKey.
(Helper for stating theorems; the sweep itself panics on a decode failure.) -/
def sweepRemoves (cd : Codec) (now : Int) (obj : Bytes) : Bool :=
  match cd.decodeHeader obj with
  | some hdr => decide (now - gracePeriod > hdr.expiresTime) &&
      !(hdr.objType = objectTypePubKey : Bool)
  | none => false

/-- The body of `RemoveExpiredObjects`: iterate over a snapshot of the hash
index (Go guarantees entries deleted during `range` — here only the entry
being visited — are not revisited, and no entries are added); for each
expired non-PubKey object remove the first matching bucket entry and the
hash-index entry.  A header decode failure is a fatal consistency violation
(`panic`). -/
def sweepGo (cd : Codec) (now : Int) :
    MemDb → List (Hash × Bytes) → MemDb × DbResult Unit
  | db, [] => (db, .ok ())
  | db, (hash, obj) :: rest =>
    match cd.decodeHeader obj with
    | none => (db, .panicked)
    | some hdr =>
      if now - gracePeriod > hdr.expiresTime ∧ hdr.objType ≠ objectTypePubKey then
        sweepGo cd now (db.removeFromIndexes hdr.objType hash) rest
      else
        sweepGo cd now db rest

/-- `MemDb.RemoveExpiredObjects`: prune all objects, except PubKey, whose
expiry time has passed by more than the 3-hour grace period. -/
def MemDb.removeExpiredObjects (cd : Codec) (now : Int) (db : MemDb) :
    MemDb × DbResult Unit :=
  if db.closed then (db, .err .dbClosed)
  else sweepGo cd now db db.objectsByHash

/-! ## The older engine variant (`database/memdb/memdb.go`)

The repository also contains an older revision of the `memdb` engine, with
only `msgByCounter` / `broadcastByCounter` buckets and a stored-object record
type.  Its Go maps are set to `nil` by `Close`, and — unlike the current
engine — its `FetchObjectsFromCounter` performs no closed check, so the nil
bucket matters: model the maps as `Option` association lists (`none` = nil). -/

/-- `memdb.object` (older variant): a stored object record. -/
structure Obj0 where
  objType : ObjType
  counter : Nat
  data : Bytes
  deriving DecidableEq, Repr

/-- The older variant's `memdb.MemDb`. -/
structure MemDb0 where
  objectsByHash : Option (List (Hash × Obj0))
  msgByCounter : Option (List (Nat × Hash))
  broadcastByCounter : Option (List (Nat × Hash))
  closed : Bool
  deriving DecidableEq, Repr

/-- The older variant's `newMemDb`. -/
def newMemDb0 : MemDb0 :=
  { objectsByHash := some []
    msgByCounter := some []
    broadcastByCounter := some []
    closed := false }

/-- The older variant's `getCounterMap`: only messages and broadcasts have
buckets; every other type yields nil. -/
def MemDb0.getCounterMap (db : MemDb0) (objType : ObjType) :
    Option (List (Nat × Hash)) :=
  if objType = objectTypeBroadcast then db.broadcastByCounter
  else if objType = objectTypeMsg then db.msgByCounter
  else none

/-- The older variant's `Close`: nil out the indices and mark closed. -/
def MemDb0.close (db : MemDb0) : MemDb0 × DbResult Unit :=
  if db.closed then (db, .err .dbClosed)
  else
    ({ objectsByHash := none
       msgByCounter := none
       broadcastByCounter := none
       closed := true }, .ok ())

/-- The older variant's lock-free `fetchObjectByHash` (lookup on a nil map
yields absent). -/
def MemDb0.fetchObjectByHashPriv (db : MemDb0) (hash : Hash) : DbResult Bytes :=
  match alookup (db.objectsByHash.getD []) hash with
  | some object => .ok object.data
  | none => .err .nonexistentObject

/-- The older variant's fetch loop (no deep copy in this revision). -/
def fetchLoop0 (db : MemDb0) (byCounter : List (Nat × Hash)) :
    List Nat → DbResult (List Bytes)
  | [] => .ok []
  | k :: rest =>
    match alookup byCounter k with
    | none => .panicked
    | some hash =>
      match db.fetchObjectByHashPriv hash with
      | .ok obj =>
        match fetchLoop0 db byCounter rest with
        | .ok objs => .ok (obj :: objs)
        | r => r
      | _ => .panicked

/-- The older variant's `FetchObjectsFromCounter`.  It performs **no closed
check**: a nil bucket (any unknown type, or any type after `Close`) yields
`ErrNotImplemented`, and `keys[len(keys)-1]` panics when no keys qualify. -/
def MemDb0.fetchObjectsFromCounter (db : MemDb0) (objType : ObjType)
    (counter count : Nat) : MemDb0 × DbResult (List Bytes × Nat) :=
  match db.getCounterMap objType with
  | none => (db, .err .notImplemented)
  | some counterMap =>
    let keys := sortCounters (selectKeys counterMap counter count 0)
    match keys.getLast? with
    | none => (db, .panicked)  -- keys[len(keys)-1] on an empty slice
    | some newCounter =>
      match fetchLoop0 db counterMap keys with
      | .ok objects => (db, .ok (objects, newCounter))
      | .err e => (db, .err e)
      | .panicked => (db, .panicked)

/-! ## Operation traces

A small operational harness over the current engine, used to state
trace-level claims (counter monotonicity under interleaved removals). -/

/-- One store call in a trace: an insert or one of the three removal
operations. -/
inductive Op where
  | insertOp (data : Bytes)
  | removeObjectOp (hash : Hash)
  | removeByCounterOp (objType : ObjType) (counter : Nat)
  | removeExpiredOp (now : Int)
  deriving DecidableEq, Repr

/-- Run a trace of operations, collecting for every *successful* insert the
decoded object type of the inserted bytes together with the counter value
the insert returned. -/
def runTrace (cd : Codec) : MemDb → List Op → MemDb × List (ObjType × Nat)
  | db, [] => (db, [])
  | db, .insertOp d :: rest =>
    let step := MemDb.insertObject cd db d
    let next := runTrace cd step.1 rest
    match step.2, cd.decodeHeader d with
    | .ok (_, c), some hdr => (next.1, (hdr.objType, c) :: next.2)
    | _, _ => (next.1, next.2)
  | db, .removeObjectOp h :: rest => runTrace cd (MemDb.removeObject cd db h).1 rest
  | db, .removeByCounterOp t k :: rest =>
    runTrace cd (MemDb.removeObjectByCounter db t k).1 rest
  | db, .removeExpiredOp now :: rest =>
    runTrace cd (MemDb.removeExpiredObjects cd now db).1 rest

/-! ## A concrete codec instance for witnesses

The general theorems below quantify over an arbitrary `Codec`; witnesses
evaluate them at this small executable instance.  An object is encoded as
`[t, e]`: type `t`, expiring at time `100000 * e - 100000` (so `e = 0` is
long expired and `e ≥ 1` is unexpired relative to `now = 0`). -/

/-- A concrete toy codec for witness evaluation. -/
def toyCodec : Codec :=
  { decodeHeader := fun b =>
      match b with
      | [t, e] => some { expiresTime := 100000 * (e : Int) - 100000
                         objType := t, version := 4, streamNumber := 1 }
      | _ => none
    calcInventoryHash := fun b => (b ++ List.replicate hashSize 7).take hashSize
    decodePubKey := fun b =>
      match b with
      | [_, e] => some { version := 4, tag := List.replicate hashSize e }
      | _ => none
    identityTag := fun _ => none }

/-! ## Machinery for the expiration-sweep characterization (C6) -/

/-- Erase a list of keys in order (the hash-index deletions a sweep performs). -/
def aeraseList {K V : Type} [DecidableEq K] (l : List (K × V)) (ks : List K) :
    List (K × V) :=
  ks.foldl aerase l

/-- Remove first-matching bucket entries for a list of hashes in order (the
bucket deletions a sweep performs). -/
def foldRemoveAll (bl : List (Nat × Hash)) (hs : List Hash) :
    List (Nat × Hash) :=
  hs.foldl removeFirstMatch bl

/-- The hash-index keys a sweep over snapshot `l` deletes. -/
def removedKeys (cd : Codec) (now : Int) (l : List (Hash × Bytes)) :
    List Hash :=
  (l.filter (fun p => sweepRemoves cd now p.2)).map Prod.fst

/-- The hashes a sweep over snapshot `l` deletes from the bucket of type `t`. -/
def removedKeysOfType (cd : Codec) (now : Int) (l : List (Hash × Bytes))
    (t : ObjType) : List Hash :=
  (l.filter (fun p => sweepRemoves cd now p.2 &&
    decide ((cd.decodeHeader p.2).map ObjHeader.objType = some t))).map Prod.fst

/-- Whether the sweep removes the object stored under hash `h` in `db`. -/
def removedHash (cd : Codec) (now : Int) (db : MemDb) (h : Hash) : Bool :=
  match alookup db.objectsByHash h with
  | some o => sweepRemoves cd now o
  | none => false

/-- All counter buckets of a store, as (type, bucket) pairs: the four fixed
buckets and the lazily created unknown-type buckets. -/
def MemDb.allBuckets (db : MemDb) : List (ObjType × Counter) :=
  (objectTypeBroadcast, db.broadcastCounter) :: (objectTypeMsg, db.msgCounter)
    :: (objectTypePubKey, db.pubKeyCounter)
    :: (objectTypeGetPubKey, db.getPubKeyCounter) :: db.unknownObjCounter

/-- Well-formedness of a store state, as maintained by the engine through
its public interface in the absence of duplicate-hash inserts: the hash
index is a genuine map (no duplicate keys), every stored object decodes,
no bucket holds the same hash twice, and a bucket entry whose hash is live
points at an object of that bucket's type. -/
def wfStore (cd : Codec) (db : MemDb) : Prop :=
  (db.objectsByHash.map Prod.fst).Nodup
  ∧ (∀ p ∈ db.objectsByHash, (cd.decodeHeader p.2).isSome = true)
  ∧ (∀ b ∈ db.allBuckets, (b.2.byCounter.map Prod.snd).Nodup)
  ∧ (∀ b ∈ db.allBuckets, ∀ e ∈ b.2.byCounter,
      ((alookup db.objectsByHash e.2).all
        (fun o => decide ((cd.decodeHeader o).map ObjHeader.objType = some b.1)))
        = true)

/-! ## Concrete stores used to evaluate the code at specific inputs

`objA`, `objB`, `objC` are three distinct, unexpired message-type objects of
the toy codec.  The `byCounter` lists of the stores below represent the Go
map `{1: hashA, 2: hashB, ...}` under particular (legal, randomized) map
iteration orders. -/

/-- A message-type object (toy encoding `[type, expiry]`). -/
def objA : Bytes := [2, 1]
/-- A second message-type object. -/
def objB : Bytes := [2, 2]
/-- A third message-type object. -/
def objC : Bytes := [2, 3]
/-- Inventory hash of `objA` under the toy codec. -/
def hashA : Hash := toyCodec.calcInventoryHash objA
/-- Inventory hash of `objB` under the toy codec. -/
def hashB : Hash := toyCodec.calcInventoryHash objB
/-- Inventory hash of `objC` under the toy codec. -/
def hashC : Hash := toyCodec.calcInventoryHash objC

/-- A store holding `objA` (counter 1) and `objB` (counter 2) in its message
bucket, whose map iteration order visits counter key 2 before key 1 —
a state reachable by two inserts, Go map iteration order being
unspecified. -/
def dbSel : MemDb :=
  { objectsByHash := [(hashB, objB), (hashA, objA)]
    pubKeyByTag := []
    msgCounter := ⟨[(2, hashB), (1, hashA)], 2⟩
    broadcastCounter := ⟨[], 0⟩
    pubKeyCounter := ⟨[], 0⟩
    getPubKeyCounter := ⟨[], 0⟩
    unknownObjCounter := []
    closed := false }

/-- A store holding `objA`, `objB`, `objC` at message counters 1, 2, 3,
whose map iteration order visits counter key 3 first. -/
def dbPag : MemDb :=
  { objectsByHash := [(hashC, objC), (hashA, objA), (hashB, objB)]
    pubKeyByTag := []
    msgCounter := ⟨[(3, hashC), (1, hashA), (2, hashB)], 3⟩
    broadcastCounter := ⟨[], 0⟩
    pubKeyCounter := ⟨[], 0⟩
    getPubKeyCounter := ⟨[], 0⟩
    unknownObjCounter := []
    closed := false }

/-- Bytes of an object inserted twice in the duplicate-insert scenario. -/
def dupData : Bytes := [2, 5]
/-- Its inventory hash. -/
def dupHash : Hash := toyCodec.calcInventoryHash dupData
/-- The store after inserting `dupData` once into a fresh store. -/
def dbDup1 : MemDb := (MemDb.insertObject toyCodec newMemDb dupData).1
/-- The store after inserting `dupData` twice. -/
def dbDup2 : MemDb := (MemDb.insertObject toyCodec dbDup1 dupData).1
/-- The store after then removing the object by its hash. -/
def dbDup3 : MemDb := (MemDb.removeObject toyCodec dbDup2 dupHash).1

/-- The witness store for C6: a fresh store after inserting a long-expired
message `[2,0]`, an unexpired message `[2,1]`, and a long-expired pubkey
`[1,0]` (toy encoding `[type, expiry]`). -/
def dbExp : MemDb :=
  (MemDb.insertObject toyCodec
    (MemDb.insertObject toyCodec
      (MemDb.insertObject toyCodec newMemDb [2, 0]).1 [2, 1]).1 [1, 0]).1

/-- A concrete eight-operation trace used by the C7 witness: four message
inserts and one broadcast insert interleaved with one removal of each
kind. -/
def opsW : List Op :=
  [.insertOp [2, 1], .insertOp [3, 1], .insertOp [2, 2],
   .removeByCounterOp 2 1, .insertOp [2, 3],
   .removeObjectOp (toyCodec.calcInventoryHash [2, 3]),
   .insertOp [2, 4], .removeExpiredOp 0]

section AList

variable {K V : Type} [DecidableEq K]

theorem alookup_ainsert_self (l : List (K × V)) (k : K) (v : V) :
    alookup (ainsert l k v) k = some v := by
  induction l with
  | nil => simp [ainsert, alookup]
  | cons p rest ih =>
    obtain ⟨k', v'⟩ := p
    by_cases h : k' = k <;> simp [ainsert, alookup, h, ih]

theorem alookup_ainsert_ne (l : List (K × V)) (k k' : K) (v : V) (h : k ≠ k') :
    alookup (ainsert l k v) k' = alookup l k' := by
  induction l with
  | nil => simp [ainsert, alookup, h]
  | cons p rest ih =>
    obtain ⟨k₀, v₀⟩ := p
    by_cases h₀ : k₀ = k
    · subst h₀
      simp [ainsert, alookup, h]
    · simp only [ainsert, if_neg h₀]
      by_cases h₁ : k₀ = k' <;> simp [alookup, h₁, ih]

theorem alookup_mem {l : List (K × V)} {k : K} {v : V}
    (h : alookup l k = some v) : (k, v) ∈ l := by
  induction l with
  | nil => simp [alookup] at h
  | cons p rest ih =>
    obtain ⟨k', v'⟩ := p
    by_cases h₀ : k' = k
    · subst h₀
      simp [alookup] at h
      simp [h]
    · simp only [alookup, if_neg h₀] at h
      exact List.mem_cons_of_mem _ (ih h)

theorem alookup_eq_none_of_not_mem {l : List (K × V)} {k : K}
    (h : k ∉ l.map Prod.fst) : alookup l k = none := by
  induction l with
  | nil => rfl
  | cons p rest ih =>
    obtain ⟨k', v'⟩ := p
    simp only [List.map_cons, List.mem_cons, not_or] at h
    have hne : k' ≠ k := fun hh => h.1 hh.symm
    simp [alookup, hne, ih h.2]

end AList

/-! ## Lemmas: counter-bucket dispatch -/

theorem getCounterMap_objectsByHash (db : MemDb) (t : ObjType) :
    (db.getCounterMap t).1.objectsByHash = db.objectsByHash := by
  unfold MemDb.getCounterMap
  split_ifs <;> first
    | rfl
    | (cases alookup db.unknownObjCounter t <;> rfl)

theorem getCounterMap_pubKeyByTag (db : MemDb) (t : ObjType) :
    (db.getCounterMap t).1.pubKeyByTag = db.pubKeyByTag := by
  unfold MemDb.getCounterMap
  split_ifs <;> first
    | rfl
    | (cases alookup db.unknownObjCounter t <;> rfl)

theorem getCounterMap_closed (db : MemDb) (t : ObjType) :
    (db.getCounterMap t).1.closed = db.closed := by
  unfold MemDb.getCounterMap
  split_ifs <;> first
    | rfl
    | (cases alookup db.unknownObjCounter t <;> rfl)

theorem getCounterMap_byCounter (db : MemDb) (t : ObjType) :
    (db.getCounterMap t).2.byCounter = db.bucketView t := by
  unfold MemDb.getCounterMap MemDb.bucketView
  split_ifs <;> first
    | rfl
    | (cases h : alookup db.unknownObjCounter t <;> simp [h])

theorem getCounterMap_counterPos (db : MemDb) (t : ObjType) :
    (db.getCounterMap t).2.counterPos = db.bucketPos t := by
  unfold MemDb.getCounterMap MemDb.bucketPos
  split_ifs <;> first
    | rfl
    | (cases h : alookup db.unknownObjCounter t <;> simp [h])

theorem view_ainsert_fresh (l : List (ObjType × Counter)) (t u : ObjType)
    (habs : alookup l t = none) :
    ((alookup (ainsert l t ⟨[], 0⟩) u).map Counter.byCounter).getD []
      = ((alookup l u).map Counter.byCounter).getD [] := by
  by_cases hut : u = t
  · subst hut
    simp [alookup_ainsert_self, habs]
  · rw [alookup_ainsert_ne _ _ _ _ (fun hh => hut hh.symm)]

theorem pos_ainsert_fresh (l : List (ObjType × Counter)) (t u : ObjType)
    (habs : alookup l t = none) :
    ((alookup (ainsert l t ⟨[], 0⟩) u).map Counter.counterPos).getD 0
      = ((alookup l u).map Counter.counterPos).getD 0 := by
  by_cases hut : u = t
  · subst hut
    simp [alookup_ainsert_self, habs]
  · rw [alookup_ainsert_ne _ _ _ _ (fun hh => hut hh.symm)]

theorem getCounterMap_bucketView (db : MemDb) (t u : ObjType) :
    (db.getCounterMap t).1.bucketView u = db.bucketView u := by
  unfold MemDb.getCounterMap MemDb.bucketView
  split_ifs <;> try rfl
  all_goals cases h : alookup db.unknownObjCounter t <;> try rfl
  all_goals simp [view_ainsert_fresh db.unknownObjCounter t u h]

theorem getCounterMap_bucketPos (db : MemDb) (t u : ObjType) :
    (db.getCounterMap t).1.bucketPos u = db.bucketPos u := by
  unfold MemDb.getCounterMap MemDb.bucketPos
  split_ifs <;> try rfl
  all_goals cases h : alookup db.unknownObjCounter t <;> try rfl
  all_goals simp [pos_ainsert_fresh db.unknownObjCounter t u h]

theorem setCounterMap_objectsByHash (db : MemDb) (t : ObjType) (c : Counter) :
    (db.setCounterMap t c).objectsByHash = db.objectsByHash := by
  unfold MemDb.setCounterMap
  split_ifs <;> rfl

theorem setCounterMap_pubKeyByTag (db : MemDb) (t : ObjType) (c : Counter) :
    (db.setCounterMap t c).pubKeyByTag = db.pubKeyByTag := by
  unfold MemDb.setCounterMap
  split_ifs <;> rfl

theorem setCounterMap_closed (db : MemDb) (t : ObjType) (c : Counter) :
    (db.setCounterMap t c).closed = db.closed := by
  unfold MemDb.setCounterMap
  split_ifs <;> rfl

theorem setCounterMap_bucketView_self (db : MemDb) (t : ObjType) (c : Counter) :
    (db.setCounterMap t c).bucketView t = c.byCounter := by
  unfold MemDb.setCounterMap MemDb.bucketView
  split_ifs with h1 h2 h3 h4 <;> simp_all [alookup_ainsert_self]

theorem setCounterMap_bucketPos_self (db : MemDb) (t : ObjType) (c : Counter) :
    (db.setCounterMap t c).bucketPos t = c.counterPos := by
  unfold MemDb.setCounterMap MemDb.bucketPos
  split_ifs with h1 h2 h3 h4 <;> simp_all [alookup_ainsert_self]

theorem setCounterMap_bucketView_ne (db : MemDb) (t u : ObjType) (c : Counter)
    (hne : u ≠ t) : (db.setCounterMap t c).bucketView u = db.bucketView u := by
  unfold MemDb.setCounterMap MemDb.bucketView
  split_ifs <;> simp_all [alookup_ainsert_ne _ _ _ _ (fun hh => hne hh.symm)]

theorem setCounterMap_bucketPos_ne (db : MemDb) (t u : ObjType) (c : Counter)
    (hne : u ≠ t) : (db.setCounterMap t c).bucketPos u = db.bucketPos u := by
  unfold MemDb.setCounterMap MemDb.bucketPos
  split_ifs <;> simp_all [alookup_ainsert_ne _ _ _ _ (fun hh => hne hh.symm)]

theorem bucketView_objectsUpdate (db : MemDb) (x : List (Hash × Bytes))
    (u : ObjType) :
    ({ db with objectsByHash := x } : MemDb).bucketView u = db.bucketView u := rfl

theorem bucketPos_objectsUpdate (db : MemDb) (x : List (Hash × Bytes))
    (u : ObjType) :
    ({ db with objectsByHash := x } : MemDb).bucketPos u = db.bucketPos u := rfl

theorem bucketView_pubKeyUpdate (db : MemDb) (x : List (Hash × Bytes))
    (u : ObjType) :
    ({ db with pubKeyByTag := x } : MemDb).bucketView u = db.bucketView u := rfl

theorem bucketPos_pubKeyUpdate (db : MemDb) (x : List (Hash × Bytes))
    (u : ObjType) :
    ({ db with pubKeyByTag := x } : MemDb).bucketPos u = db.bucketPos u := rfl

theorem newMemDb_bucketPos (t : ObjType) : newMemDb.bucketPos t = 0 := by
  unfold newMemDb MemDb.bucketPos
  split_ifs <;> rfl

/-! ## Lemmas: `InsertObject` characterization -/

theorem insertFinish_snd (db1 : MemDb) (t : ObjType) (hash : Hash)
    (data : Bytes) :
    (db1.insertFinish t hash data).2
      = .ok (hash, (db1.bucketPos t + 1) % 2 ^ 64) := by
  unfold MemDb.insertFinish Counter.insert
  simp [getCounterMap_counterPos, bucketPos_objectsUpdate]

theorem insertFinish_closed (db1 : MemDb) (t : ObjType) (hash : Hash)
    (data : Bytes) :
    (db1.insertFinish t hash data).1.closed = db1.closed := by
  unfold MemDb.insertFinish
  simp [setCounterMap_closed, getCounterMap_closed]

theorem insertFinish_pubKeyByTag (db1 : MemDb) (t : ObjType) (hash : Hash)
    (data : Bytes) :
    (db1.insertFinish t hash data).1.pubKeyByTag = db1.pubKeyByTag := by
  unfold MemDb.insertFinish
  simp [setCounterMap_pubKeyByTag, getCounterMap_pubKeyByTag]

theorem insertFinish_objectsByHash (db1 : MemDb) (t : ObjType) (hash : Hash)
    (data : Bytes) :
    (db1.insertFinish t hash data).1.objectsByHash
      = ainsert db1.objectsByHash hash data := by
  unfold MemDb.insertFinish
  simp [setCounterMap_objectsByHash, getCounterMap_objectsByHash]

theorem insertFinish_bucketPos_self (db1 : MemDb) (t : ObjType) (hash : Hash)
    (data : Bytes) :
    (db1.insertFinish t hash data).1.bucketPos t
      = (db1.bucketPos t + 1) % 2 ^ 64 := by
  unfold MemDb.insertFinish Counter.insert
  simp [setCounterMap_bucketPos_self, getCounterMap_counterPos,
    bucketPos_objectsUpdate]

theorem insertFinish_bucketPos_ne (db1 : MemDb) (t u : ObjType) (hash : Hash)
    (data : Bytes) (hne : u ≠ t) :
    (db1.insertFinish t hash data).1.bucketPos u = db1.bucketPos u := by
  unfold MemDb.insertFinish
  simp [setCounterMap_bucketPos_ne _ _ _ _ hne, getCounterMap_bucketPos,
    bucketPos_objectsUpdate]

theorem insertPubKeyStep_some (cd : Codec) (db : MemDb) (data : Bytes)
    (db1 : MemDb) (h : MemDb.insertPubKeyStep cd db data = some db1) :
    ∃ tagH, db1 = { db with pubKeyByTag := ainsert db.pubKeyByTag tagH data } := by
  unfold MemDb.insertPubKeyStep at h
  cases hdp : cd.decodePubKey data
  · simp [hdp] at h
  · rename_i msg
    simp only [hdp] at h
    rcases htag : (if msg.version = simplePubKeyVersion ∨
        msg.version = extendedPubKeyVersion then
        cd.identityTag msg
      else if msg.version = encryptedPubKeyVersion then
        some msg.tag
      else some ([] : Bytes)) with _ | tag
    · rw [htag] at h
      simp at h
    · rw [htag] at h
      cases hth : newShaHash tag
      · simp [hth] at h
      · rename_i tagH
        simp only [hth, Option.some.injEq] at h
        exact ⟨tagH, h.symm⟩

theorem insertObject_closed_of_not_err (cd : Codec) (db : MemDb) (data : Bytes)
    (h : (MemDb.insertObject cd db data).2 ≠ .err .dbClosed) :
    db.closed = false := by
  by_cases hcl : db.closed
  · exact absurd (by unfold MemDb.insertObject; simp [hcl]) h
  · simp only [Bool.not_eq_true] at hcl
    exact hcl

theorem insertObject_err (cd : Codec) (db : MemDb) (data : Bytes) (e : DbError)
    (hins : (MemDb.insertObject cd db data).2 = .err e) :
    (MemDb.insertObject cd db data).1 = db := by
  by_cases hcl : db.closed
  · unfold MemDb.insertObject
    simp [hcl]
  · cases hdec : cd.decodeHeader data with
    | none => unfold MemDb.insertObject; simp [hcl, hdec]
    | some hdr =>
      cases hsha : newShaHash (cd.calcInventoryHash data) with
      | none => unfold MemDb.insertObject; simp [hcl, hdec, hsha]
      | some hash =>
        by_cases hpk : hdr.objType = objectTypePubKey
        · cases hstep : MemDb.insertPubKeyStep cd db data with
          | none => unfold MemDb.insertObject; simp [hcl, hdec, hsha, hpk, hstep]
          | some db1 =>
            have hkey : MemDb.insertObject cd db data
                = db1.insertFinish hdr.objType hash data := by
              unfold MemDb.insertObject
              simp [hcl, hdec, hsha, hpk, hstep]
            rw [hkey, insertFinish_snd] at hins
            exact absurd hins (by simp)
        · have hkey : MemDb.insertObject cd db data
              = db.insertFinish hdr.objType hash data := by
            unfold MemDb.insertObject
            simp [hcl, hdec, hsha, hpk]
          rw [hkey, insertFinish_snd] at hins
          exact absurd hins (by simp)

theorem insertObject_ne_panicked (cd : Codec) (db : MemDb) (data : Bytes) :
    (MemDb.insertObject cd db data).2 ≠ .panicked := by
  by_cases hcl : db.closed
  · unfold MemDb.insertObject
    simp [hcl]
  · cases hdec : cd.decodeHeader data with
    | none => unfold MemDb.insertObject; simp [hcl, hdec]
    | some hdr =>
      cases hsha : newShaHash (cd.calcInventoryHash data) with
      | none => unfold MemDb.insertObject; simp [hcl, hdec, hsha]
      | some hash =>
        by_cases hpk : hdr.objType = objectTypePubKey
        · cases hstep : MemDb.insertPubKeyStep cd db data with
          | none => unfold MemDb.insertObject; simp [hcl, hdec, hsha, hpk, hstep]
          | some db1 =>
            have hkey : MemDb.insertObject cd db data
                = db1.insertFinish hdr.objType hash data := by
              unfold MemDb.insertObject
              simp [hcl, hdec, hsha, hpk, hstep]
            rw [hkey, insertFinish_snd]
            simp
        · have hkey : MemDb.insertObject cd db data
              = db.insertFinish hdr.objType hash data := by
            unfold MemDb.insertObject
            simp [hcl, hdec, hsha, hpk]
          rw [hkey, insertFinish_snd]
          simp

theorem insertObject_ok (cd : Codec) (db : MemDb) (data : Bytes) (hsh : Hash)
    (c : Nat) (hins : (MemDb.insertObject cd db data).2 = .ok (hsh, c)) :
    db.closed = false ∧
    ∃ hdr, cd.decodeHeader data = some hdr ∧
      newShaHash (cd.calcInventoryHash data) = some hsh ∧
      c = (db.bucketPos hdr.objType + 1) % 2 ^ 64 ∧
      (MemDb.insertObject cd db data).1.closed = false ∧
      alookup (MemDb.insertObject cd db data).1.objectsByHash hsh = some data ∧
      (MemDb.insertObject cd db data).1.bucketPos hdr.objType = c ∧
      ∀ u, u ≠ hdr.objType →
        (MemDb.insertObject cd db data).1.bucketPos u = db.bucketPos u := by
  have hcl : db.closed = false :=
    insertObject_closed_of_not_err cd db data (by rw [hins]; simp)
  cases hdec : cd.decodeHeader data with
  | none =>
    unfold MemDb.insertObject at hins
    simp [hcl, hdec] at hins
  | some hdr =>
    cases hsha : newShaHash (cd.calcInventoryHash data) with
    | none =>
      unfold MemDb.insertObject at hins
      simp [hcl, hdec, hsha] at hins
    | some hash =>
      by_cases hpk : hdr.objType = objectTypePubKey
      · cases hstep : MemDb.insertPubKeyStep cd db data with
        | none =>
          unfold MemDb.insertObject at hins
          simp [hcl, hdec, hsha, hpk, hstep] at hins
        | some db1 =>
          have hkey : MemDb.insertObject cd db data
              = db1.insertFinish hdr.objType hash data := by
            unfold MemDb.insertObject
            simp [hcl, hdec, hsha, hpk, hstep]
          rw [hkey, insertFinish_snd] at hins
          have hins' : hash = hsh ∧ (db1.bucketPos hdr.objType + 1) % 2 ^ 64 = c := by
            simpa using hins
          obtain ⟨hh, hc⟩ := hins'
          subst hh
          subst hc
          obtain ⟨tagH, rfl⟩ := insertPubKeyStep_some cd db data _ hstep
          refine ⟨hcl, hdr, rfl, rfl, ?_, ?_, ?_, ?_, ?_⟩
          · rw [bucketPos_pubKeyUpdate]
          · rw [hkey, insertFinish_closed]
            exact hcl
          · rw [hkey, insertFinish_objectsByHash]
            exact alookup_ainsert_self _ _ _
          · rw [hkey, insertFinish_bucketPos_self]
          · intro u hu
            rw [hkey, insertFinish_bucketPos_ne _ _ _ _ _ hu,
              bucketPos_pubKeyUpdate]
      · have hkey : MemDb.insertObject cd db data
            = db.insertFinish hdr.objType hash data := by
          unfold MemDb.insertObject
          simp [hcl, hdec, hsha, hpk]
        rw [hkey, insertFinish_snd] at hins
        have hins' : hash = hsh ∧ (db.bucketPos hdr.objType + 1) % 2 ^ 64 = c := by
          simpa using hins
        obtain ⟨hh, hc⟩ := hins'
        subst hh
        subst hc
        refine ⟨hcl, hdr, rfl, rfl, rfl, ?_, ?_, ?_, ?_⟩
        · rw [hkey, insertFinish_closed]
          exact hcl
        · rw [hkey, insertFinish_objectsByHash]
          exact alookup_ainsert_self _ _ _
        · rw [hkey, insertFinish_bucketPos_self]
        · intro u hu
          rw [hkey]
          exact insertFinish_bucketPos_ne _ _ _ _ _ hu

/-! ## Lemmas: the bucket-modify-then-erase step of the removal operations -/

theorem modifyBucket_bucketPos (db : MemDb) (t : ObjType)
    (f : List (Nat × Hash) → List (Nat × Hash)) (u : ObjType) :
    ((db.getCounterMap t).1.setCounterMap t
        { (db.getCounterMap t).2 with
          byCounter := f (db.getCounterMap t).2.byCounter }).bucketPos u
      = db.bucketPos u := by
  by_cases hut : u = t
  · subst hut
    rw [setCounterMap_bucketPos_self]
    exact getCounterMap_counterPos db u
  · rw [setCounterMap_bucketPos_ne _ _ _ _ hut]
    exact getCounterMap_bucketPos db t u

theorem modifyBucket_bucketView_self (db : MemDb) (t : ObjType)
    (f : List (Nat × Hash) → List (Nat × Hash)) :
    ((db.getCounterMap t).1.setCounterMap t
        { (db.getCounterMap t).2 with
          byCounter := f (db.getCounterMap t).2.byCounter }).bucketView t
      = f (db.bucketView t) := by
  rw [setCounterMap_bucketView_self]
  simp [getCounterMap_byCounter]

theorem modifyBucket_bucketView_ne (db : MemDb) (t u : ObjType)
    (f : List (Nat × Hash) → List (Nat × Hash)) (hut : u ≠ t) :
    ((db.getCounterMap t).1.setCounterMap t
        { (db.getCounterMap t).2 with
          byCounter := f (db.getCounterMap t).2.byCounter }).bucketView u
      = db.bucketView u := by
  rw [setCounterMap_bucketView_ne _ _ _ _ hut]
  exact getCounterMap_bucketView db t u

theorem modifyBucket_objectsByHash (db : MemDb) (t : ObjType)
    (f : List (Nat × Hash) → List (Nat × Hash)) :
    ((db.getCounterMap t).1.setCounterMap t
        { (db.getCounterMap t).2 with
          byCounter := f (db.getCounterMap t).2.byCounter }).objectsByHash
      = db.objectsByHash := by
  rw [setCounterMap_objectsByHash]
  exact getCounterMap_objectsByHash db t

theorem modifyBucket_pubKeyByTag (db : MemDb) (t : ObjType)
    (f : List (Nat × Hash) → List (Nat × Hash)) :
    ((db.getCounterMap t).1.setCounterMap t
        { (db.getCounterMap t).2 with
          byCounter := f (db.getCounterMap t).2.byCounter }).pubKeyByTag
      = db.pubKeyByTag := by
  rw [setCounterMap_pubKeyByTag]
  exact getCounterMap_pubKeyByTag db t

theorem modifyBucket_closed (db : MemDb) (t : ObjType)
    (f : List (Nat × Hash) → List (Nat × Hash)) :
    ((db.getCounterMap t).1.setCounterMap t
        { (db.getCounterMap t).2 with
          byCounter := f (db.getCounterMap t).2.byCounter }).closed
      = db.closed := by
  rw [setCounterMap_closed]
  exact getCounterMap_closed db t

/-! ## Lemmas: the removal state updates -/

theorem removeFromIndexes_bucketPos (db : MemDb) (t : ObjType) (hash : Hash)
    (u : ObjType) :
    (db.removeFromIndexes t hash).bucketPos u = db.bucketPos u := by
  unfold MemDb.removeFromIndexes
  exact (bucketPos_objectsUpdate _ _ _).trans
    (modifyBucket_bucketPos db t (fun l => removeFirstMatch l hash) u)

theorem removeFromIndexes_bucketView_self (db : MemDb) (t : ObjType)
    (hash : Hash) :
    (db.removeFromIndexes t hash).bucketView t
      = removeFirstMatch (db.bucketView t) hash := by
  unfold MemDb.removeFromIndexes
  exact (bucketView_objectsUpdate _ _ _).trans
    (modifyBucket_bucketView_self db t (fun l => removeFirstMatch l hash))

theorem removeFromIndexes_bucketView_ne (db : MemDb) (t u : ObjType)
    (hash : Hash) (hut : u ≠ t) :
    (db.removeFromIndexes t hash).bucketView u = db.bucketView u := by
  unfold MemDb.removeFromIndexes
  exact (bucketView_objectsUpdate _ _ _).trans
    (modifyBucket_bucketView_ne db t u (fun l => removeFirstMatch l hash) hut)

theorem removeFromIndexes_objectsByHash (db : MemDb) (t : ObjType)
    (hash : Hash) :
    (db.removeFromIndexes t hash).objectsByHash
      = aerase db.objectsByHash hash := by
  unfold MemDb.removeFromIndexes
  exact congrArg (fun l => aerase l hash)
    (modifyBucket_objectsByHash db t (fun l => removeFirstMatch l hash))

theorem removeFromIndexes_pubKeyByTag (db : MemDb) (t : ObjType)
    (hash : Hash) :
    (db.removeFromIndexes t hash).pubKeyByTag = db.pubKeyByTag := by
  unfold MemDb.removeFromIndexes
  exact modifyBucket_pubKeyByTag db t (fun l => removeFirstMatch l hash)

theorem removeFromIndexes_closed (db : MemDb) (t : ObjType) (hash : Hash) :
    (db.removeFromIndexes t hash).closed = db.closed := by
  unfold MemDb.removeFromIndexes
  exact modifyBucket_closed db t (fun l => removeFirstMatch l hash)

theorem removeByCounterEntry_bucketPos (db : MemDb) (t : ObjType) (k : Nat)
    (hash : Hash) (u : ObjType) :
    (db.removeByCounterEntry t k hash).bucketPos u = db.bucketPos u := by
  unfold MemDb.removeByCounterEntry
  exact (bucketPos_objectsUpdate _ _ _).trans
    (modifyBucket_bucketPos db t (fun l => aerase l k) u)

/-! ## Lemmas: frame facts of the removal operations -/

theorem removeObject_bucketPos (cd : Codec) (db : MemDb) (hash : Hash)
    (u : ObjType) :
    (MemDb.removeObject cd db hash).1.bucketPos u = db.bucketPos u := by
  by_cases hcl : db.closed
  · unfold MemDb.removeObject
    simp [hcl]
  · cases hobj : alookup db.objectsByHash hash with
    | none => unfold MemDb.removeObject; simp [hcl, hobj]
    | some obj =>
      cases hdec : cd.decodeHeader obj with
      | none => unfold MemDb.removeObject; simp [hcl, hobj, hdec]
      | some hdr =>
        have hkey : (MemDb.removeObject cd db hash).1
            = db.removeFromIndexes hdr.objType hash := by
          unfold MemDb.removeObject
          simp [hcl, hobj, hdec]
        rw [hkey]
        exact removeFromIndexes_bucketPos db hdr.objType hash u

theorem removeObject_pubKeyByTag (cd : Codec) (db : MemDb) (hash : Hash) :
    (MemDb.removeObject cd db hash).1.pubKeyByTag = db.pubKeyByTag := by
  by_cases hcl : db.closed
  · unfold MemDb.removeObject
    simp [hcl]
  · cases hobj : alookup db.objectsByHash hash with
    | none => unfold MemDb.removeObject; simp [hcl, hobj]
    | some obj =>
      cases hdec : cd.decodeHeader obj with
      | none => unfold MemDb.removeObject; simp [hcl, hobj, hdec]
      | some hdr =>
        have hkey : (MemDb.removeObject cd db hash).1
            = db.removeFromIndexes hdr.objType hash := by
          unfold MemDb.removeObject
          simp [hcl, hobj, hdec]
        rw [hkey]
        exact removeFromIndexes_pubKeyByTag db hdr.objType hash

theorem removeObjectByCounter_bucketPos (db : MemDb) (t : ObjType) (k : Nat)
    (u : ObjType) :
    (MemDb.removeObjectByCounter db t k).1.bucketPos u = db.bucketPos u := by
  by_cases hcl : db.closed
  · unfold MemDb.removeObjectByCounter
    simp [hcl]
  · cases hk : alookup (db.getCounterMap t).2.byCounter k with
    | none =>
      have hkey : (MemDb.removeObjectByCounter db t k).1
          = (db.getCounterMap t).1 := by
        unfold MemDb.removeObjectByCounter
        simp [hcl, hk]
      rw [hkey]
      exact getCounterMap_bucketPos db t u
    | some hash =>
      have hkey : (MemDb.removeObjectByCounter db t k).1
          = db.removeByCounterEntry t k hash := by
        unfold MemDb.removeObjectByCounter
        simp [hcl, hk]
      rw [hkey]
      exact removeByCounterEntry_bucketPos db t k hash u

theorem sweepGo_bucketPos (cd : Codec) (now : Int) :
    ∀ (l : List (Hash × Bytes)) (db : MemDb) (u : ObjType),
    (sweepGo cd now db l).1.bucketPos u = db.bucketPos u := by
  intro l
  induction l with
  | nil => intro db u; rfl
  | cons p rest ih =>
    intro db u
    obtain ⟨hash, obj⟩ := p
    unfold sweepGo
    cases hdec : cd.decodeHeader obj with
    | none => rfl
    | some hdr =>
      simp only
      by_cases hq : now - gracePeriod > hdr.expiresTime ∧
          hdr.objType ≠ objectTypePubKey
      · rw [if_pos hq, ih]
        exact removeFromIndexes_bucketPos db hdr.objType hash u
      · rw [if_neg hq]
        exact ih db u

theorem removeExpiredObjects_bucketPos (cd : Codec) (now : Int) (db : MemDb)
    (u : ObjType) :
    (MemDb.removeExpiredObjects cd now db).1.bucketPos u = db.bucketPos u := by
  unfold MemDb.removeExpiredObjects
  by_cases hcl : db.closed
  · simp [hcl]
  · simp only [hcl, Bool.false_eq_true, if_false]
    exact sweepGo_bucketPos cd now db.objectsByHash db u

theorem removePubKey_objectsByHash (db : MemDb) (tag : Hash) :
    (MemDb.removePubKey db tag).1.objectsByHash = db.objectsByHash := by
  unfold MemDb.removePubKey
  by_cases hcl : db.closed
  · simp [hcl]
  · simp only [hcl, Bool.false_eq_true, if_false]
    cases htag : alookup db.pubKeyByTag tag <;> simp [hcl]

theorem removePubKey_closed (db : MemDb) (tag : Hash) :
    (MemDb.removePubKey db tag).1.closed = db.closed := by
  unfold MemDb.removePubKey
  by_cases hcl : db.closed
  · simp [hcl]
  · simp only [hcl, Bool.false_eq_true, if_false]
    cases htag : alookup db.pubKeyByTag tag <;> simp [hcl]

/-! ## Claims -/

/-- C1 (code_bug): inserting the same bytes twice succeeds with counters 1
and 2, leaving the message bucket mapping two different counter keys to the
same hash — violating the claim's no-duplicate-hash invariant.  A subsequent
`RemoveObject` deletes only the first matching bucket entry design, leaving
counter 2 as a dangling reference to a hash no longer in the hash index —
violating the claim's invariant I1, a state the code itself declares
impossible (its `FetchObjectByCounter` panics on it). -/
theorem claim_c1_duplicate_insert_dangling :
    (MemDb.insertObject toyCodec newMemDb dupData).2 = .ok (dupHash, 1)
    ∧ (MemDb.insertObject toyCodec dbDup1 dupData).2 = .ok (dupHash, 2)
    ∧ dbDup2.msgCounter.byCounter = [(1, dupHash), (2, dupHash)]
    ∧ (MemDb.removeObject toyCodec dbDup2 dupHash).2 = .ok ()
    ∧ dbDup3.msgCounter.byCounter = [(2, dupHash)]
    ∧ alookup dbDup3.objectsByHash dupHash = none
    ∧ (MemDb.fetchObjectByCounter dbDup3 objectTypeMsg 2).2 = .panicked := by
  decide

/-- C2 (code_bug): with message bucket `{1: hashA, 2: hashB}` iterated in the
order 2, 1 (a legal Go map iteration order), `FetchObjectsFromCounter(Msg, 1,
1)` returns `objB` with last counter 2 — not the `maxCount` smallest eligible
keys (`objA` with last counter 1) required by the claim and expected by the
repository's own `TestCounter`. -/
theorem claim_c2_selection_not_smallest :
    (MemDb.fetchObjectsFromCounter dbSel objectTypeMsg 1 1).2
        = .ok ([objB], 2)
    ∧ (MemDb.fetchObjectsFromCounter dbSel objectTypeMsg 1 1).2
        ≠ .ok ([objA], 1) := by
  decide

/-- C3 (code_bug): with message bucket `{1: hashA, 2: hashB, 3: hashC}`
iterated in the order 3, 1, 2, paginating with `maxCount = 2` from counter 1
returns `objA, objC` (last counter 3); resuming from 3 returns only `objC`
and the pagination terminates (fewer results than `maxCount`), so the live
object `objB` is never returned — contradicting the claim's completeness. -/
theorem claim_c3_pagination_skips_object :
    (MemDb.fetchObjectsFromCounter dbPag objectTypeMsg 1 2).2
        = .ok ([objA, objC], 3)
    ∧ (MemDb.fetchObjectsFromCounter dbPag objectTypeMsg 3 2).2
        = .ok ([objC], 3)
    ∧ alookup dbPag.objectsByHash hashB = some objB
    ∧ objB ∉ [objA, objC] ++ [objC] := by
  decide

/-- C4 counterexample: in the older engine variant
(`database/memdb/memdb.go`), `FetchObjectsFromCounter` performs no liveness
check; after a successful `Close` it fails with `ErrNotImplemented` (the
nil'd bucket), not `ErrDbClosed` as the claim requires. -/
theorem claim_c4_counterexample :
    (MemDb0.close newMemDb0).2 = .ok ()
    ∧ (MemDb0.fetchObjectsFromCounter (MemDb0.close newMemDb0).1
        objectTypeMsg 1 10).2 = .err .notImplemented
    ∧ (DbResult.err (α := List Bytes × Nat) .notImplemented)
        ≠ .err .dbClosed := by
  decide

/-- C4 (amended): on the current engine, after a successful `Close` every
store operation — ExistsObject, FetchObjectByHash, FetchObjectByCounter,
FetchObjectsFromCounter, GetCounter, InsertObject, RemoveObject,
RemoveObjectByCounter, RemoveExpiredObjects, RemovePubKey, Sync, and a
second Close — fails with `ErrDbClosed`. -/
theorem claim_c4_closed_contract (db : MemDb)
    (hclose : (MemDb.close db).2 = .ok ()) :
    (∀ h, (MemDb.close db).1.existsObject h = .err .dbClosed)
    ∧ (∀ h, (MemDb.close db).1.fetchObjectByHash h = .err .dbClosed)
    ∧ (∀ t k, ((MemDb.close db).1.fetchObjectByCounter t k).2 = .err .dbClosed)
    ∧ (∀ t k n, ((MemDb.close db).1.fetchObjectsFromCounter t k n).2
        = .err .dbClosed)
    ∧ (∀ t, ((MemDb.close db).1.getCounter t).2 = .err .dbClosed)
    ∧ (∀ cd data, (MemDb.insertObject cd (MemDb.close db).1 data).2
        = .err .dbClosed)
    ∧ (∀ cd h, (MemDb.removeObject cd (MemDb.close db).1 h).2 = .err .dbClosed)
    ∧ (∀ t k, ((MemDb.close db).1.removeObjectByCounter t k).2 = .err .dbClosed)
    ∧ (∀ cd now, (MemDb.removeExpiredObjects cd now (MemDb.close db).1).2
        = .err .dbClosed)
    ∧ (∀ tag, ((MemDb.close db).1.removePubKey tag).2 = .err .dbClosed)
    ∧ (MemDb.close db).1.sync = .err .dbClosed
    ∧ ((MemDb.close db).1.close).2 = .err .dbClosed := by
  have h1 : (MemDb.close db).1.closed = true := by
    unfold MemDb.close at hclose ⊢
    by_cases hcl : db.closed
    · simp [hcl] at hclose
    · simp [hcl]
  refine ⟨?_, ?_, ?_, ?_, ?_, ?_, ?_, ?_, ?_, ?_, ?_, ?_⟩
  · intro h
    unfold MemDb.existsObject
    simp [h1]
  · intro h
    unfold MemDb.fetchObjectByHash
    simp [h1]
  · intro t k
    unfold MemDb.fetchObjectByCounter
    simp [h1]
  · intro t k n
    unfold MemDb.fetchObjectsFromCounter
    simp [h1]
  · intro t
    unfold MemDb.getCounter
    simp [h1]
  · intro cd data
    unfold MemDb.insertObject
    simp [h1]
  · intro cd h
    unfold MemDb.removeObject
    simp [h1]
  · intro t k
    unfold MemDb.removeObjectByCounter
    simp [h1]
  · intro cd now
    unfold MemDb.removeExpiredObjects
    simp [h1]
  · intro tag
    unfold MemDb.removePubKey
    simp [h1]
  · unfold MemDb.sync
    simp [h1]
  · have hgen : ∀ dbc : MemDb, dbc.closed = true →
        (MemDb.close dbc).2 = .err .dbClosed := by
      intro dbc h
      unfold MemDb.close
      simp [h]
    exact hgen _ h1

/-- C4 witness: closing a fresh store succeeds, and `Sync` on the closed
store then fails with `ErrDbClosed`. -/
theorem claim_c4_closed_contract_witness :
    (MemDb.close newMemDb).2 = .ok ()
    ∧ (MemDb.close newMemDb).1.sync = .err .dbClosed :=
  ⟨by decide,
   (claim_c4_closed_contract newMemDb (by decide)).2.2.2.2.2.2.2.2.2.2.1⟩

/-- C5 counterexample: `GetCounter` on a fresh store and an unknown type (7)
succeeds with 0 — it does not fail with `ErrNotImplemented` — and it creates
a counter bucket for type 7 as a side effect, changing the store's bucket
set. -/
theorem claim_c5_counterexample :
    (MemDb.getCounter newMemDb 7).2 = .ok 0
    ∧ (MemDb.getCounter newMemDb 7).2 ≠ .err .notImplemented
    ∧ (MemDb.getCounter newMemDb 7).1.unknownObjCounter
        ≠ newMemDb.unknownObjCounter := by
  decide

/-- C5 (amended): on an open store, `GetCounter` for a type outside the four
known types with no existing bucket returns 0 (never `ErrNotImplemented`)
and lazily creates an empty bucket for that type as a side effect. -/
theorem claim_c5_lazy_getCounter (db : MemDb) (t : ObjType)
    (hopen : db.closed = false)
    (h3 : t ≠ objectTypeBroadcast) (h2 : t ≠ objectTypeMsg)
    (h1 : t ≠ objectTypePubKey) (h0 : t ≠ objectTypeGetPubKey)
    (habs : alookup db.unknownObjCounter t = none) :
    (MemDb.getCounter db t).2 = .ok 0
    ∧ (MemDb.getCounter db t).1
        = { db with unknownObjCounter := ainsert db.unknownObjCounter t ⟨[], 0⟩ } := by
  unfold MemDb.getCounter MemDb.getCounterMap
  simp [hopen, h0, h1, h2, h3, habs]

/-- C5 witness: instantiated at a fresh store and unknown type 9. -/
theorem claim_c5_lazy_getCounter_witness :
    (MemDb.getCounter newMemDb 9).2 = .ok 0
    ∧ (MemDb.getCounter newMemDb 9).1
        = { newMemDb with
            unknownObjCounter := ainsert newMemDb.unknownObjCounter 9 ⟨[], 0⟩ } :=
  claim_c5_lazy_getCounter newMemDb 9 (by decide) (by decide) (by decide)
    (by decide) (by decide) (by decide)

/-- C8 (confirmed): a successful `InsertObject` of bytes `data` followed by
`FetchObjectByHash` with the returned hash yields exactly `data`. -/
theorem claim_c8_roundtrip (cd : Codec) (db : MemDb) (data : Bytes)
    (hsh : Hash) (c : Nat)
    (hins : (MemDb.insertObject cd db data).2 = .ok (hsh, c)) :
    MemDb.fetchObjectByHash (MemDb.insertObject cd db data).1 hsh = .ok data := by
  obtain ⟨-, hdr, -, -, -, hclosed, hlook, -, -⟩ :=
    insertObject_ok cd db data hsh c hins
  unfold MemDb.fetchObjectByHash MemDb.fetchObjectByHashPriv
  simp [hclosed, hlook]

/-- C8 witness: inserting a concrete object into a fresh store and fetching
it back by the returned hash. -/
theorem claim_c8_roundtrip_witness :
    (MemDb.insertObject toyCodec newMemDb [2, 5]).2
        = .ok (toyCodec.calcInventoryHash [2, 5], 1)
    ∧ MemDb.fetchObjectByHash (MemDb.insertObject toyCodec newMemDb [2, 5]).1
        (toyCodec.calcInventoryHash [2, 5]) = .ok [2, 5] :=
  ⟨by decide,
   claim_c8_roundtrip toyCodec newMemDb [2, 5]
     (toyCodec.calcInventoryHash [2, 5]) 1 (by decide)⟩

/-- C9 (confirmed): whenever `InsertObject` returns an error, the store state
— hash index, tag index, and every counter bucket with its position — is
exactly the state before the call. -/
theorem claim_c9_insert_error_frame (cd : Codec) (db : MemDb) (data : Bytes)
    (e : DbError) (hins : (MemDb.insertObject cd db data).2 = .err e) :
    (MemDb.insertObject cd db data).1 = db :=
  insertObject_err cd db data e hins

/-- C9 witness: inserting undecodable bytes into a fresh store errors and
leaves the store unchanged. -/
theorem claim_c9_insert_error_frame_witness :
    (MemDb.insertObject toyCodec newMemDb [9]).2 = .err .codecError
    ∧ (MemDb.insertObject toyCodec newMemDb [9]).1 = newMemDb :=
  ⟨by decide,
   claim_c9_insert_error_frame toyCodec newMemDb [9] .codecError (by decide)⟩

theorem aerase_cons_ne {K V : Type} [DecidableEq K] (k k' : K) (v : V)
    (l : List (K × V)) (hne : k ≠ k') :
    aerase ((k, v) :: l) k' = (k, v) :: aerase l k' := by
  simp [aerase, hne]

theorem aeraseList_cons_of_not_mem {K V : Type} [DecidableEq K] (k : K) (v : V)
    (l : List (K × V)) (ks : List K) (hk : k ∉ ks) :
    aeraseList ((k, v) :: l) ks = (k, v) :: aeraseList l ks := by
  induction ks generalizing l with
  | nil => rfl
  | cons k' ks' ih =>
    simp only [List.mem_cons, not_or] at hk
    unfold aeraseList
    simp only [List.foldl_cons]
    rw [aerase_cons_ne k k' v l hk.1]
    exact ih (aerase l k') hk.2

theorem aeraseList_filter {K V : Type} [DecidableEq K] (q : K × V → Bool) :
    ∀ (l : List (K × V)), (l.map Prod.fst).Nodup →
    aeraseList l ((l.filter q).map Prod.fst) = l.filter (fun p => !(q p)) := by
  intro l
  induction l with
  | nil => intro _; rfl
  | cons p l' ih =>
    obtain ⟨k, v⟩ := p
    intro hnd
    simp only [List.map_cons, List.nodup_cons] at hnd
    obtain ⟨hk, hnd'⟩ := hnd
    by_cases hq : q (k, v)
    · have hfil : ((k, v) :: l').filter q = (k, v) :: l'.filter q := by
        simp [List.filter_cons, hq]
      have hfil2 : ((k, v) :: l').filter (fun p => !(q p))
          = l'.filter (fun p => !(q p)) := by
        simp [List.filter_cons, hq]
      rw [hfil, List.map_cons, hfil2]
      have hhead : aeraseList ((k, v) :: l') (k :: (l'.filter q).map Prod.fst)
          = aeraseList l' ((l'.filter q).map Prod.fst) := by
        unfold aeraseList
        simp [aerase]
      rw [hhead]
      exact ih hnd'
    · have hqf : q (k, v) = false := by
        revert hq
        cases q (k, v) <;> simp
      have hfil : ((k, v) :: l').filter q = l'.filter q := by
        simp [List.filter_cons, hqf]
      have hfil2 : ((k, v) :: l').filter (fun p => !(q p))
          = (k, v) :: l'.filter (fun p => !(q p)) := by
        simp [List.filter_cons, hqf]
      rw [hfil, hfil2]
      have hknotin : k ∉ (l'.filter q).map Prod.fst := by
        intro hmem
        obtain ⟨p', hp'fil, hp'fst⟩ := List.mem_map.mp hmem
        exact hk (List.mem_map.mpr ⟨p', List.mem_of_mem_filter hp'fil, hp'fst⟩)
      rw [aeraseList_cons_of_not_mem k v l' _ hknotin, ih hnd']

theorem removeFirstMatch_eq_filter (bl : List (Nat × Hash)) (h : Hash)
    (hnd : (bl.map Prod.snd).Nodup) :
    removeFirstMatch bl h = bl.filter (fun e => !(decide (e.2 = h))) := by
  induction bl with
  | nil => rfl
  | cons e bl' ih =>
    obtain ⟨k, v⟩ := e
    simp only [List.map_cons, List.nodup_cons] at hnd
    obtain ⟨hv, hnd'⟩ := hnd
    by_cases hvh : v = h
    · subst hvh
      have hall : ∀ e ∈ bl', (fun e : Nat × Hash => !(decide (e.2 = v))) e = true := by
        intro e he
        simp only [Bool.not_eq_true', decide_eq_false_iff_not]
        intro hev
        exact hv (List.mem_map.mpr ⟨e, he, hev⟩)
      have hL : removeFirstMatch ((k, v) :: bl') v = bl' := by
        simp [removeFirstMatch]
      have hR : ((k, v) :: bl').filter (fun e => !(decide (e.2 = v))) = bl' := by
        simp only [List.filter_cons]
        simp only [decide_True, Bool.not_true, Bool.false_eq_true, if_false]
        exact List.filter_eq_self.mpr hall
      rw [hL, hR]
    · have hL : removeFirstMatch ((k, v) :: bl') h
          = (k, v) :: removeFirstMatch bl' h := by
        simp [removeFirstMatch, hvh]
      have hR : ((k, v) :: bl').filter (fun e => !(decide (e.2 = h)))
          = (k, v) :: bl'.filter (fun e => !(decide (e.2 = h))) := by
        simp [List.filter_cons, hvh]
      rw [hL, hR, ih hnd']

theorem foldRemoveAll_eq_filter (hs : List Hash) :
    ∀ (bl : List (Nat × Hash)), (bl.map Prod.snd).Nodup →
    foldRemoveAll bl hs = bl.filter (fun e => !(decide (e.2 ∈ hs))) := by
  induction hs with
  | nil =>
    intro bl _
    unfold foldRemoveAll
    simp
  | cons h hs' ih =>
    intro bl hnd
    have hstep : foldRemoveAll bl (h :: hs')
        = foldRemoveAll (removeFirstMatch bl h) hs' := rfl
    rw [hstep, removeFirstMatch_eq_filter bl h hnd]
    have hnd2 : ((bl.filter (fun e => !(decide (e.2 = h)))).map Prod.snd).Nodup :=
      ((List.filter_sublist bl).map Prod.snd).nodup hnd
    rw [ih _ hnd2, List.filter_filter]
    refine List.filter_congr ?_
    intro e he
    simp only [List.mem_cons, decide_eq_true_eq]
    cases hdec : decide (e.2 = h ∨ e.2 ∈ hs') <;>
      simp only [decide_eq_true_eq, decide_eq_false_iff_not] at hdec
    · push_neg at hdec
      simp [hdec.1, hdec.2]
    · rcases hdec with h1 | h2
      · simp [h1]
      · by_cases h1 : e.2 = h <;> simp [h1, h2]

theorem alookup_of_mem_nodup {K V : Type} [DecidableEq K] :
    ∀ {l : List (K × V)}, (l.map Prod.fst).Nodup →
    ∀ {k : K} {v : V}, (k, v) ∈ l → alookup l k = some v := by
  intro l
  induction l with
  | nil => intro _ k v hm; simp at hm
  | cons p l' ih =>
    obtain ⟨k', v'⟩ := p
    intro hnd k v hm
    simp only [List.map_cons, List.nodup_cons] at hnd
    obtain ⟨hk', hnd'⟩ := hnd
    rcases List.mem_cons.mp hm with heq | hmem
    · injection heq with h1 h2
      subst h1
      subst h2
      simp [alookup]
    · have hne : k' ≠ k := by
        intro hkk
        apply hk'
        rw [hkk]
        exact List.mem_map.mpr ⟨(k, v), hmem, rfl⟩
      simp only [alookup, if_neg hne]
      exact ih hnd' hmem

/-- Characterization of the sweep loop over a snapshot `l` whose objects all
decode: it succeeds, erases from the hash index exactly the keys of the
expired non-PubKey entries of `l` (in order), performs the corresponding
first-match removals on each type's bucket, and leaves the tag index and the
liveness flag untouched. -/
theorem sweepGo_spec (cd : Codec) (now : Int) :
    ∀ (l : List (Hash × Bytes)) (db : MemDb),
    (∀ p ∈ l, (cd.decodeHeader p.2).isSome = true) →
    (sweepGo cd now db l).2 = .ok ()
    ∧ (sweepGo cd now db l).1.objectsByHash
        = aeraseList db.objectsByHash (removedKeys cd now l)
    ∧ (∀ t, (sweepGo cd now db l).1.bucketView t
        = foldRemoveAll (db.bucketView t) (removedKeysOfType cd now l t))
    ∧ (sweepGo cd now db l).1.pubKeyByTag = db.pubKeyByTag
    ∧ (sweepGo cd now db l).1.closed = db.closed := by
  intro l
  induction l with
  | nil =>
    intro db _
    exact ⟨rfl, rfl, fun t => rfl, rfl, rfl⟩
  | cons p rest ih =>
    intro db hdecod
    obtain ⟨hash, obj⟩ := p
    have hobj : (cd.decodeHeader obj).isSome = true :=
      hdecod (hash, obj) (List.mem_cons_self _ _)
    cases hdo : cd.decodeHeader obj with
    | none =>
      rw [hdo] at hobj
      simp at hobj
    | some hdr =>
      have hrest : ∀ p ∈ rest, (cd.decodeHeader p.2).isSome = true :=
        fun p hp => hdecod p (List.mem_cons_of_mem _ hp)
      by_cases hq : now - gracePeriod > hdr.expiresTime ∧
          hdr.objType ≠ objectTypePubKey
      · have hsw : sweepRemoves cd now obj = true := by
          simp [sweepRemoves, hdo, hq.1, hq.2]
        have hkey : sweepGo cd now db ((hash, obj) :: rest)
            = sweepGo cd now (db.removeFromIndexes hdr.objType hash) rest := by
          unfold sweepGo
          simp only [hdo]
          rw [if_pos hq]
          conv_lhs => unfold sweepGo
        have hrk : removedKeys cd now ((hash, obj) :: rest)
            = hash :: removedKeys cd now rest := by
          unfold removedKeys
          simp [List.filter_cons, hsw]
        obtain ⟨ihok, ihobj, ihbv, ihpk, ihcl⟩ :=
          ih (db.removeFromIndexes hdr.objType hash) hrest
        refine ⟨?_, ?_, ?_, ?_, ?_⟩
        · rw [hkey]
          exact ihok
        · rw [hkey, ihobj, removeFromIndexes_objectsByHash, hrk]
          rfl
        · intro t
          rw [hkey, ihbv t]
          by_cases hts : t = hdr.objType
          · subst hts
            rw [removeFromIndexes_bucketView_self]
            have hrkt : removedKeysOfType cd now ((hash, obj) :: rest) hdr.objType
                = hash :: removedKeysOfType cd now rest hdr.objType := by
              unfold removedKeysOfType
              simp [List.filter_cons, hsw, hdo]
            rw [hrkt]
            rfl
          · rw [removeFromIndexes_bucketView_ne db _ t hash hts]
            have hrkt : removedKeysOfType cd now ((hash, obj) :: rest) t
                = removedKeysOfType cd now rest t := by
              unfold removedKeysOfType
              simp [List.filter_cons, hdo, Ne.symm hts]
            rw [hrkt]
        · rw [hkey, ihpk, removeFromIndexes_pubKeyByTag]
        · rw [hkey, ihcl, removeFromIndexes_closed]
      · have hsw : sweepRemoves cd now obj = false := by
          by_cases hA : now - gracePeriod > hdr.expiresTime
          · have hB : hdr.objType = objectTypePubKey := by
              by_contra hB'
              exact hq ⟨hA, hB'⟩
            simp [sweepRemoves, hdo, hA, hB]
          · simp [sweepRemoves, hdo, hA]
        have hkey : sweepGo cd now db ((hash, obj) :: rest)
            = sweepGo cd now db rest := by
          unfold sweepGo
          simp only [hdo]
          rw [if_neg hq]
          conv_lhs => unfold sweepGo
        have hrk : removedKeys cd now ((hash, obj) :: rest)
            = removedKeys cd now rest := by
          unfold removedKeys
          simp [List.filter_cons, hsw]
        have hrkt : ∀ t, removedKeysOfType cd now ((hash, obj) :: rest) t
            = removedKeysOfType cd now rest t := by
          intro t
          unfold removedKeysOfType
          simp [List.filter_cons, hsw]
        obtain ⟨ihok, ihobj, ihbv, ihpk, ihcl⟩ := ih db hrest
        refine ⟨?_, ?_, ?_, ?_, ?_⟩
        · rw [hkey]
          exact ihok
        · rw [hkey, ihobj, hrk]
        · intro t
          rw [hkey, ihbv t, hrkt t]
        · rw [hkey]
          exact ihpk
        · rw [hkey]
          exact ihcl

theorem alookup_of_mem_nodup' {K V : Type} [DecidableEq K]
    {l : List (K × V)} (hnd : (l.map Prod.fst).Nodup) {p : K × V}
    (hm : p ∈ l) : alookup l p.1 = some p.2 := by
  obtain ⟨k, v⟩ := p
  exact alookup_of_mem_nodup hnd hm

theorem bucketView_cases (db : MemDb) (t : ObjType) :
    db.bucketView t = []
    ∨ ∃ c, (t, c) ∈ db.allBuckets ∧ db.bucketView t = c.byCounter := by
  unfold MemDb.bucketView MemDb.allBuckets
  split_ifs with h3 h2 h1 h0
  · subst h3
    right
    exact ⟨db.broadcastCounter, List.mem_cons_self _ _, rfl⟩
  · subst h2
    right
    exact ⟨db.msgCounter, by simp, rfl⟩
  · subst h1
    right
    exact ⟨db.pubKeyCounter, by simp, rfl⟩
  · subst h0
    right
    exact ⟨db.getPubKeyCounter, by simp, rfl⟩
  · cases hl : alookup db.unknownObjCounter t with
    | none =>
      left
      simp [hl]
    | some c =>
      right
      refine ⟨c, ?_, by simp [hl]⟩
      have hm := alookup_mem hl
      exact List.mem_cons_of_mem _ (List.mem_cons_of_mem _
        (List.mem_cons_of_mem _ (List.mem_cons_of_mem _ hm)))

theorem wf_bucket_values_nodup (cd : Codec) (db : MemDb)
    (hwf : wfStore cd db) (t : ObjType) :
    ((db.bucketView t).map Prod.snd).Nodup := by
  rcases bucketView_cases db t with h | ⟨c, hmem, heq⟩
  · rw [h]
    exact List.nodup_nil
  · rw [heq]
    exact hwf.2.2.1 (t, c) hmem

theorem wf_type_coherent (cd : Codec) (db : MemDb) (hwf : wfStore cd db)
    (t : ObjType) (e : Nat × Hash) (he : e ∈ db.bucketView t) (o : Bytes)
    (hlk : alookup db.objectsByHash e.2 = some o) :
    (cd.decodeHeader o).map ObjHeader.objType = some t := by
  rcases bucketView_cases db t with h | ⟨c, hmem, heq⟩
  · rw [h] at he
    simp at he
  · rw [heq] at he
    have h4 := hwf.2.2.2 (t, c) hmem e he
    rw [hlk] at h4
    simp only [Option.all] at h4
    exact of_decide_eq_true h4

/-- C6 (confirmed): on an open, well-formed store, `RemoveExpiredObjects`
succeeds and removes from the hash index exactly those stored objects whose
decoded expiration time lies more than the 3-hour grace period before `now`
and whose type is not PubKey (`sweepRemoves`); expired PubKey objects and
all unexpired objects remain.  Every counter bucket likewise loses exactly
the entries whose hash pointed at such a removed object. -/
theorem claim_c6_remove_expired_exact (cd : Codec) (now : Int) (db : MemDb)
    (hopen : db.closed = false) (hwf : wfStore cd db) :
    (MemDb.removeExpiredObjects cd now db).2 = .ok ()
    ∧ (MemDb.removeExpiredObjects cd now db).1.objectsByHash
        = db.objectsByHash.filter (fun p => !(sweepRemoves cd now p.2))
    ∧ ∀ t, (MemDb.removeExpiredObjects cd now db).1.bucketView t
        = (db.bucketView t).filter (fun e => !(removedHash cd now db e.2)) := by
  have hkey : MemDb.removeExpiredObjects cd now db
      = sweepGo cd now db db.objectsByHash := by
    unfold MemDb.removeExpiredObjects
    simp [hopen]
  obtain ⟨hok, hobj, hbv, hpk, hcl⟩ :=
    sweepGo_spec cd now db.objectsByHash db hwf.2.1
  refine ⟨?_, ?_, ?_⟩
  · rw [hkey]
    exact hok
  · rw [hkey, hobj]
    unfold removedKeys
    exact aeraseList_filter (fun p => sweepRemoves cd now p.2)
      db.objectsByHash hwf.1
  · intro t
    rw [hkey, hbv t,
      foldRemoveAll_eq_filter _ _ (wf_bucket_values_nodup cd db hwf t)]
    refine List.filter_congr ?_
    intro e he
    have hiff : e.2 ∈ removedKeysOfType cd now db.objectsByHash t
        ↔ removedHash cd now db e.2 = true := by
      constructor
      · intro hmem
        unfold removedKeysOfType at hmem
        obtain ⟨p, hpfil, hpfst⟩ := List.mem_map.mp hmem
        have hpmem := (List.mem_filter.mp hpfil).1
        have hcond := (List.mem_filter.mp hpfil).2
        rw [Bool.and_eq_true] at hcond
        have hlk : alookup db.objectsByHash p.1 = some p.2 :=
          alookup_of_mem_nodup' hwf.1 hpmem
        unfold removedHash
        rw [← hpfst, hlk]
        exact hcond.1
      · intro hrm
        unfold removedHash at hrm
        cases hlk : alookup db.objectsByHash e.2 with
        | none =>
          rw [hlk] at hrm
          simp at hrm
        | some o =>
          rw [hlk] at hrm
          have hco := wf_type_coherent cd db hwf t e he o hlk
          have hpl : (e.2, o) ∈ db.objectsByHash := alookup_mem hlk
          unfold removedKeysOfType
          refine List.mem_map.mpr ⟨(e.2, o), ?_, rfl⟩
          refine List.mem_filter.mpr ⟨hpl, ?_⟩
          rw [Bool.and_eq_true]
          exact ⟨hrm, by simp [hco]⟩
    have hb : decide (e.2 ∈ removedKeysOfType cd now db.objectsByHash t)
        = removedHash cd now db e.2 := by
      cases hrh : removedHash cd now db e.2
      · simp only [decide_eq_false_iff_not]
        intro hm
        have hcontr := hiff.mp hm
        rw [hrh] at hcontr
        exact Bool.false_ne_true hcontr
      · simp only [decide_eq_true_eq]
        exact hiff.mpr hrh
    rw [hb]

/-- C6 witness: on the concrete store `dbExp` at `now = 0`, the sweep keeps
exactly the unexpired message and the expired pubkey. -/
theorem claim_c6_remove_expired_exact_witness :
    dbExp.closed = false ∧ wfStore toyCodec dbExp
    ∧ (MemDb.removeExpiredObjects toyCodec 0 dbExp).1.objectsByHash
        = dbExp.objectsByHash.filter (fun p => !(sweepRemoves toyCodec 0 p.2)) :=
  ⟨by decide, by unfold wfStore MemDb.allBuckets; decide,
   (claim_c6_remove_expired_exact toyCodec 0 dbExp (by decide)
     (by unfold wfStore MemDb.allBuckets; decide)).2.1⟩

/-- The counters collected by `runTrace` for successful inserts of decoded
type `t` are consecutive, starting right after the bucket position of the
starting state, and the final bucket position is the starting one plus the
number of those inserts — provided the bucket cannot wrap (fewer remaining
operations than fit in a uint64). -/
theorem runTrace_counters_aux (cd : Codec) (t : ObjType) :
    ∀ (ops : List Op) (db : MemDb),
    db.bucketPos t + ops.length < 2 ^ 64 →
    (((runTrace cd db ops).2.filter (fun p => decide (p.1 = t))).map Prod.snd
        = List.range' (db.bucketPos t + 1)
            ((runTrace cd db ops).2.filter (fun p => decide (p.1 = t))).length)
    ∧ (runTrace cd db ops).1.bucketPos t
        = db.bucketPos t
            + ((runTrace cd db ops).2.filter (fun p => decide (p.1 = t))).length := by
  intro ops
  induction ops with
  | nil =>
    intro db hb
    simp [runTrace]
  | cons op rest ih =>
    intro db hb
    have hb' : db.bucketPos t + rest.length < 2 ^ 64 := by
      simp only [List.length_cons] at hb
      omega
    cases op with
    | insertOp d =>
      cases hstep : (MemDb.insertObject cd db d).2 with
      | panicked => exact absurd hstep (insertObject_ne_panicked cd db d)
      | err e =>
        have hfr : (MemDb.insertObject cd db d).1 = db :=
          insertObject_err cd db d e hstep
        cases hdec : cd.decodeHeader d with
        | none =>
          simp only [runTrace, hstep, hdec, hfr]
          exact ih db hb'
        | some hdr =>
          simp only [runTrace, hstep, hdec, hfr]
          exact ih db hb'
      | ok a =>
        obtain ⟨hsh, c⟩ := a
        obtain ⟨hcl, hdr, hdec, hsha, hc, hclosed1, hlook, hposself, hframe⟩ :=
          insertObject_ok cd db d hsh c hstep
        simp only [runTrace, hstep, hdec]
        by_cases hts : hdr.objType = t
        · subst hts
          have hcval : c = db.bucketPos hdr.objType + 1 := by
            rw [hc]
            exact Nat.mod_eq_of_lt (by simp only [List.length_cons] at hb; omega)
          have hb2 : (MemDb.insertObject cd db d).1.bucketPos hdr.objType
              + rest.length < 2 ^ 64 := by
            rw [hposself, hcval]
            simp only [List.length_cons] at hb
            omega
          obtain ⟨ihm, ihp⟩ := ih (MemDb.insertObject cd db d).1 hb2
          rw [hposself, hcval] at ihm ihp
          constructor
          · simp only [List.filter_cons, decide_eq_true_eq, eq_self_iff_true,
              if_true, List.map_cons, List.length_cons, ihm, hcval]
            rw [List.range'_succ]
          · simp only [List.filter_cons, decide_eq_true_eq, eq_self_iff_true,
              if_true, List.length_cons, ihp, hcval]
            omega
        · have hfr2 : (MemDb.insertObject cd db d).1.bucketPos t
              = db.bucketPos t := hframe t (fun hh => hts hh.symm)
          have hb2 : (MemDb.insertObject cd db d).1.bucketPos t
              + rest.length < 2 ^ 64 := by
            rw [hfr2]
            exact hb'
          obtain ⟨ihm, ihp⟩ := ih (MemDb.insertObject cd db d).1 hb2
          rw [hfr2] at ihm ihp
          constructor
          · simp only [List.filter_cons, decide_eq_true_eq, if_neg hts]
            exact ihm
          · simp only [List.filter_cons, decide_eq_true_eq, if_neg hts]
            exact ihp
    | removeObjectOp h =>
      have hfr : (MemDb.removeObject cd db h).1.bucketPos t = db.bucketPos t :=
        removeObject_bucketPos cd db h t
      simp only [runTrace]
      have := ih (MemDb.removeObject cd db h).1 (by rw [hfr]; exact hb')
      rw [hfr] at this
      exact this
    | removeByCounterOp u k =>
      have hfr : (MemDb.removeObjectByCounter db u k).1.bucketPos t
          = db.bucketPos t := removeObjectByCounter_bucketPos db u k t
      simp only [runTrace]
      have := ih (MemDb.removeObjectByCounter db u k).1 (by rw [hfr]; exact hb')
      rw [hfr] at this
      exact this
    | removeExpiredOp now =>
      have hfr : (MemDb.removeExpiredObjects cd now db).1.bucketPos t
          = db.bucketPos t := removeExpiredObjects_bucketPos cd now db t
      simp only [runTrace]
      have := ih (MemDb.removeExpiredObjects cd now db).1 (by rw [hfr]; exact hb')
      rw [hfr] at this
      exact this

/-- C7 (confirmed): over any trace of operations on a fresh store with fewer
than 2^64 operations, the counters returned by the successful inserts whose
bytes decode to type `t` are exactly `1, 2, ..., N` in order (no gaps, no
repeats); the bucket position for `t` ends at `N` (incremented by exactly one
per successful insert), and none of the removal operations ever changes any
bucket position. -/
theorem claim_c7_counter_monotonic (cd : Codec) (ops : List Op) (t : ObjType)
    (hlen : ops.length < 2 ^ 64) :
    (((runTrace cd newMemDb ops).2.filter (fun p => decide (p.1 = t))).map
        Prod.snd
      = List.range' 1
          ((runTrace cd newMemDb ops).2.filter
            (fun p => decide (p.1 = t))).length)
    ∧ (runTrace cd newMemDb ops).1.bucketPos t
        = ((runTrace cd newMemDb ops).2.filter
            (fun p => decide (p.1 = t))).length
    ∧ (∀ db h, (MemDb.removeObject cd db h).1.bucketPos t = db.bucketPos t)
    ∧ (∀ db k, (MemDb.removeObjectByCounter db t k).1.bucketPos t
        = db.bucketPos t)
    ∧ (∀ db now, (MemDb.removeExpiredObjects cd now db).1.bucketPos t
        = db.bucketPos t) := by
  have haux := runTrace_counters_aux cd t ops newMemDb
    (by rw [newMemDb_bucketPos]; simpa using hlen)
  rw [newMemDb_bucketPos] at haux
  simp only [Nat.zero_add] at haux
  refine ⟨haux.1, haux.2, ?_, ?_, ?_⟩
  · intro db h
    exact removeObject_bucketPos cd db h t
  · intro db k
    exact removeObjectByCounter_bucketPos db t k t
  · intro db now
    exact removeExpiredObjects_bucketPos cd now db t

/-- C7 witness: on the concrete trace `opsW`, the counters returned for the
message type are exactly `1, 2, 3, 4`. -/
theorem claim_c7_counter_monotonic_witness :
    opsW.length < 2 ^ 64
    ∧ ((runTrace toyCodec newMemDb opsW).2.filter
        (fun p => decide (p.1 = 2))).map Prod.snd
      = List.range' 1
          ((runTrace toyCodec newMemDb opsW).2.filter
            (fun p => decide (p.1 = 2))).length :=
  ⟨by decide, (claim_c7_counter_monotonic toyCodec opsW 2 (by decide)).1⟩

/-- C10 (confirmed): `RemovePubKey` never changes the hash index (so
`ExistsObject` is unaffected for every hash), and `RemoveObject` never
changes the tag index. -/
theorem claim_c10_removal_independence (cd : Codec) (db : MemDb)
    (tag hsh other : Hash) :
    (MemDb.removePubKey db tag).1.objectsByHash = db.objectsByHash
    ∧ MemDb.existsObject (MemDb.removePubKey db tag).1 other
        = MemDb.existsObject db other
    ∧ (MemDb.removeObject cd db hsh).1.pubKeyByTag = db.pubKeyByTag := by
  refine ⟨removePubKey_objectsByHash db tag, ?_,
    removeObject_pubKeyByTag cd db hsh⟩
  unfold MemDb.existsObject
  rw [removePubKey_closed, removePubKey_objectsByHash]

end Bmd
